import Mathlib

/-!
# Verification of the BFS crawl sink (election-result-BFS-crawler)

Shallow embedding of the sink's core subsystems, translated from the
JavaScript sources:

* `src/src/lib/urlnorm.js` — URL normalization (`normalizeUrl`,
  `extFromUrl`, `stableUniqUrls`);
* `src/src/lib/dedupe.js` — `mergeFilesPreferSource`;
* `src/src/lib/state.js` — `computeSeenUpTo`;
* `src/src/routes/dedupe.js` — the `POST /dedupe/level` handler;
* `src/src/routes/runs.js` — `finalizeDiscoveryRun` and route handlers;
* `src/src/lib/autofinalize.js` — the auto-finalize watchdog scan filter;
* the upload router (`makeUploadRouter`, sources-based variant) with
  `addSourceObservation` and `appendToLevelManifest`;
* `src/src/lib/resort.js` — `resortDownloads` phase A (registry walk);
* `src/src/lib/fsx.js` — `writeJson`, contrasted with the atomic
  temp+rename variant present elsewhere in the repository;
* `src/src/lib/reconcile_files.js` — `reconcileFilesLevel` and the
  `POST /runs/chunk/files` route;
* the probe router (`makeProbeRouter`) with `pickSignature` and
  `sigChanged`.

Modelling conventions:

* JavaScript strings are Lean `String`s, handled through their `List Char`
  data where recursion is needed.
* The WHATWG URL parser used via `new URL(...)` is an external Node
  primitive.  It is modelled by `parseUrl`: split off `scheme://`, then
  host up to `/?#`, then pathname up to `?#`, then query up to `#`, then
  fragment.  The model rejects strings containing whitespace or
  backslashes instead of percent-encoding them, and does not lowercase
  the scheme/host; no claim below depends on those behaviours.
* SHA-256 is an external crypto primitive; it is modelled as the identity
  on contents (an idealized collision-free content hash).
* Filesystems are total functions from path strings to optional contents;
  `toAbsolute`/`toRelative` of `src/src/lib/paths.js` are modelled as the
  identity (all modelled paths are project-root-relative).
* The electoral routing policy (`resolveSavePath` of
  `src/src/lib/routing.js`) is treated as the pluggable pure policy the
  spec describes: theorems quantify over an arbitrary routing function.
* Timestamps are abstract `Nat` ticks supplied by the caller.
* Append-only JSONL logs and console traces are not modelled; no claim
  refers to them.
-/

namespace Sink

/-! ## Characters and JS string trimming -/

/-- Whitespace removed by JavaScript `String.prototype.trim`
(restricted to the ASCII whitespace actually relevant here). -/
def isJsWs (c : Char) : Bool :=
  c = ' ' || c = '\t' || c = '\n' || c = '\r'

/-- `String.prototype.trim` on character lists. -/
def jsTrim (l : List Char) : List Char :=
  ((l.dropWhile isJsWs).reverse.dropWhile isJsWs).reverse

/-- `String.prototype.toLowerCase` (character-wise, via the character
list; avoids byte-position recursion). -/
def jsToLower (s : String) : String :=
  ⟨s.data.map Char.toLower⟩

/-- `String.prototype.startsWith` on character lists. -/
def strStartsWith (s pre : String) : Bool :=
  pre.data.isPrefixOf s.data

/-- `String.prototype.endsWith` on character lists. -/
def strEndsWith (s suf : String) : Bool :=
  suf.data.isSuffixOf s.data

/-! ## `normalizeUrl` (src/src/lib/urlnorm.js)

The source parses with `new URL`, clears the hash, strips a trailing
`/index.html` to `/`, and then collapses slash runs in the pathname with
`pathname.replace(/\/\/{2,}/g, "/")`.  Note that this regular expression
matches one `/` followed by two or more further `/`, i.e. a run of at
least THREE slashes; a run of exactly two slashes is not a match. -/

/-- Emit a pending run of `n` slashes the way the global replace of
`/\/\/{2,}/g` by `"/"` does: a run of three or more becomes a single
slash, shorter runs are kept verbatim. -/
def flushRun (n : Nat) : List Char :=
  if 3 ≤ n then ['/'] else List.replicate n '/'

/-- Worker for `collapseSlashes`: `n` counts the slashes of the current
pending run. -/
def collapseGo : List Char → Nat → List Char
  | [], n => flushRun n
  | c :: t, n =>
    if c = '/' then collapseGo t (n + 1)
    else flushRun n ++ c :: collapseGo t 0

/-- `pathname.replace(/\/\/{2,}/g, "/")`: every maximal run of three or
more slashes becomes one slash; runs of one or two slashes survive. -/
def collapseSlashes (l : List Char) : List Char :=
  collapseGo l 0

/-- The pathname suffix `/index.html` as a character list. -/
def indexSuffix : List Char :=
  ['/', 'i', 'n', 'd', 'e', 'x', '.', 'h', 't', 'm', 'l']

/-- `if (U.pathname.endsWith("/index.html")) U.pathname =
U.pathname.replace(/\/index\.html$/, "/")`. -/
def stripIndexHtml (l : List Char) : List Char :=
  if indexSuffix.isSuffixOf l then l.take (l.length - 11) ++ ['/'] else l

/-- Characters permitted in a URL scheme (model of the RFC 3986 set the
WHATWG parser accepts). -/
def isSchemeChar (c : Char) : Bool :=
  c.isAlpha || c.isDigit || c = '+' || c = '-' || c = '.'

/-- Characters ending the host component. -/
def isHostBreak (c : Char) : Bool :=
  c = '/' || c = '?' || c = '#'

/-- Characters ending the pathname component. -/
def isPathBreak (c : Char) : Bool :=
  c = '?' || c = '#'

/-- Split a character list at the first occurrence of `://`; the
accumulator holds the scanned scheme candidate in reverse. -/
def splitSchemeAux : List Char → List Char → Option (List Char × List Char)
  | acc, ':' :: '/' :: '/' :: t => some (acc.reverse, t)
  | acc, c :: t => splitSchemeAux (c :: acc) t
  | _, [] => none

/-- A parsed URL: `scheme://host` + pathname + optional query + optional
fragment. -/
structure UrlParts where
  scheme : List Char
  host : List Char
  pathname : List Char
  query : Option (List Char)
  frag : Option (List Char)
deriving DecidableEq

/-- Model of `new URL(s)` (see the module docstring for the deliberate
restrictions).  An empty pathname is materialized as `/`, as the WHATWG
parser does for special schemes. -/
def parseUrl (l : List Char) : Option UrlParts :=
  if l.any (fun c => isJsWs c || c = '\\') then none
  else
    match splitSchemeAux [] l with
    | none => none
    | some (sch, rest) =>
      if sch.isEmpty then none
      else if ¬ sch.all isSchemeChar then none
      else
        let host := rest.takeWhile (fun c => ¬ isHostBreak c)
        if host.isEmpty then none
        else
          let r1 := rest.dropWhile (fun c => ¬ isHostBreak c)
          let path0 := r1.takeWhile (fun c => ¬ isPathBreak c)
          let pathname := if path0.isEmpty then ['/'] else path0
          let r2 := r1.dropWhile (fun c => ¬ isPathBreak c)
          match r2 with
          | '?' :: qrest =>
            let q := qrest.takeWhile (fun c => ¬ c = '#')
            match qrest.dropWhile (fun c => ¬ c = '#') with
            | '#' :: f => some ⟨sch, host, pathname, some q, some f⟩
            | _ => some ⟨sch, host, pathname, some q, none⟩
          | '#' :: f => some ⟨sch, host, pathname, none, some f⟩
          | _ => some ⟨sch, host, pathname, none, none⟩

/-- `URL.prototype.toString` for the modelled components. -/
def serializeUrl (u : UrlParts) : List Char :=
  u.scheme ++ ':' :: '/' :: '/' :: u.host ++ u.pathname
    ++ (match u.query with | some q => '?' :: q | none => [])
    ++ (match u.frag with | some f => '#' :: f | none => [])

/-- The mutations `normalizeUrl` applies to a parsed URL: clear the hash,
strip a trailing `/index.html`, collapse slash runs of length ≥ 3. -/
def normParts (u : UrlParts) : UrlParts :=
  { u with pathname := collapseSlashes (stripIndexHtml u.pathname), frag := none }

/-- `normalizeUrl` on character lists: trim, parse (returning the trimmed
input if parsing fails), normalize, serialize. -/
def normalizeList (l : List Char) : List Char :=
  let t := jsTrim l
  match parseUrl t with
  | none => t
  | some u => serializeUrl (normParts u)

/-- `normalizeUrl` of `src/src/lib/urlnorm.js`. -/
def normalizeUrl (s : String) : String :=
  ⟨normalizeList s.data⟩

/-! ## `extFromUrl` -/

/-- Characters matched by `[a-z0-9]` under the `/i` flag. -/
def isExtChar (c : Char) : Bool :=
  c.isAlpha || c.isDigit

/-- First match of `/\.([a-z0-9]+)(?:\?|#|$)/i`: a dot, a nonempty
alphanumeric run, then `?`, `#` or the end of the string. -/
def extScan : List Char → Option (List Char)
  | [] => none
  | '.' :: t =>
    let run := t.takeWhile isExtChar
    let rest := t.dropWhile isExtChar
    if run.isEmpty then extScan t
    else
      match rest with
      | [] => some run
      | '?' :: _ => some run
      | '#' :: _ => some run
      | _ => extScan t
  | _ :: t => extScan t

/-- `extFromUrl` of `src/src/lib/urlnorm.js`: the matched extension
lower-cased, else `"bin"`. -/
def extFromUrl (s : String) : String :=
  match extScan s.data with
  | some r => ⟨r.map Char.toLower⟩
  | none => "bin"

/-! ## `stableUniqUrls` -/

/-- Worker for `stableUniqUrls`; `seen` is the membership set. -/
def stableUniqUrlsAux (seen : List String) : List String → List String
  | [] => []
  | x :: t =>
    let u := normalizeUrl x
    if u = "" then stableUniqUrlsAux seen t
    else if u ∈ seen then stableUniqUrlsAux seen t
    else u :: stableUniqUrlsAux (u :: seen) t

/-- `stableUniqUrls` of `src/src/lib/urlnorm.js`: normalize each URL,
drop empties, keep the first occurrence of each normalized URL. -/
def stableUniqUrls (urls : List String) : List String :=
  stableUniqUrlsAux [] urls

/-! ## `mergeFilesPreferSource` (src/src/lib/dedupe.js) -/

/-- An incoming file-candidate row (`{url, ext?, source_page_url?}`);
`none` models an absent / null field. -/
structure FileCand where
  url : String
  ext : Option String
  source_page_url : Option String
deriving DecidableEq

/-- A merged file row as held in state and artifacts
(`{url, ext, source_page_url}` with `ext` always set). -/
structure FileRow where
  url : String
  ext : String
  source_page_url : Option String
deriving DecidableEq

/-- JavaScript truthiness of an optional string (null and the empty
string are falsy). -/
def optTruthy : Option String → Bool
  | some s => ¬ s.isEmpty
  | none => false

/-- Insert one candidate into the accumulated `byUrl` map (an
insertion-ordered association list, as a JS `Map` is). -/
def mergeFilesStep (acc : List FileRow) (f : FileCand) : List FileRow :=
  let url := if f.url.isEmpty then "" else normalizeUrl f.url
  if url.isEmpty then acc
  else
    let ext := jsToLower
      (match f.ext with
       | some e => if e.isEmpty then extFromUrl url else e
       | none => extFromUrl url)
    let sp :=
      match f.source_page_url with
      | some s => if s.isEmpty then none else some (normalizeUrl s)
      | none => none
    match acc.find? (fun r => r.url = url) with
    | none => acc ++ [⟨url, ext, sp⟩]
    | some cur =>
      let ext' :=
        if (cur.ext.isEmpty || cur.ext = "bin") && ¬ ext.isEmpty && ¬ ext = "bin"
        then ext else cur.ext
      let sp' := if ¬ optTruthy cur.source_page_url && optTruthy sp then sp else cur.source_page_url
      acc.map (fun r => if r.url = url then ⟨url, ext', sp'⟩ else r)

/-- `mergeFilesPreferSource` of `src/src/lib/dedupe.js`: merge candidates
by normalized URL, preferring a non-`"bin"` extension and a non-null
source page. -/
def mergeFilesPreferSource (files : List FileCand) : List FileRow :=
  files.foldl mergeFilesStep []

/-! ## Per-domain crawl state (src/src/lib/state.js) -/

/-- One level's record in `state.json`:
`{visited, pages, files}`. -/
structure LevelRec where
  visited : List String
  pages : List String
  files : List FileRow
deriving DecidableEq

/-- `st.levels[String(level)] = rec`: replace an existing entry or append
a new one (JS objects keep one entry per key; numeric keys iterate in
ascending order, which only matters for membership here). -/
def setLevel (ls : List (Nat × LevelRec)) (n : Nat) (r : LevelRec) :
    List (Nat × LevelRec) :=
  if ls.any (fun p => p.1 = n) then ls.map (fun p => if p.1 = n then (n, r) else p)
  else ls ++ [(n, r)]

/-- `st.levels[String(level)]` lookup. -/
def lookupLevel (ls : List (Nat × LevelRec)) (n : Nat) : Option LevelRec :=
  (ls.find? (fun p => p.1 = n)).map (·.2)

/-- `computeSeenUpTo` of `src/src/lib/state.js`: the normalized page URLs
(visited ∪ pages) and file URLs of all stored levels `≤ maxLevelInclusive`,
as membership lists. -/
def computeSeenUpTo (ls : List (Nat × LevelRec)) (maxLevelInclusive : Nat) :
    List String × List String :=
  let sel := ls.filter (fun p => p.1 ≤ maxLevelInclusive)
  ((sel.map (fun p => p.2.visited.map normalizeUrl ++ p.2.pages.map normalizeUrl)).flatten,
   (sel.map (fun p =>
     (p.2.files.filter (fun f => ¬ f.url.isEmpty)).map (fun f => normalizeUrl f.url))).flatten)

/-! ## Artifact store

Artifacts are modelled at the decoded level: an artifact file holds a row
list, and the meta-first-row / legacy encodings of
`src/src/lib/artifacts.js` both decode to the same row list (the readers
`readUrlArtifactList` / `readFileArtifactList` extract `url`-bearing rows
uniformly, treating row 0 like any other row).  The chunk writers
(`writeChunkedUrls`) emit part files and a manifest that are a pure
function of the written URL list, so the chunk output is modelled as that
list. -/

/-- A `{url, change}` diff-artifact row. -/
structure DiffUrlRow where
  url : String
  change : String
deriving DecidableEq

/-- A download-queue diff row `{url, change, ext, source_page_url}`
(`ext` may be null when inferred from a URL without extension). -/
structure DlRow where
  url : String
  change : String
  ext : Option String
  source_page_url : Option String
deriving DecidableEq

/-- The per-domain persistent state touched by the frontier engine:
`state.json` levels plus the decoded artifact files. -/
structure DomainState where
  levels : List (Nat × LevelRec)
  urlArts : Nat → Option (List String)
  fileArts : Nat → Option (List FileRow)
  urlsDiff : Nat → Option (List DiffUrlRow)
  urlsRemoved : Nat → Option (List DiffUrlRow)
  filesDiff : Nat → Option (List DlRow)
  filesRemoved : Nat → Option (List DlRow)
  metaDiff : Nat → Option (List DiffUrlRow)
  remainingUrls : Nat → Option (List String)
  chunkedNext : Nat → Option (List String)
  chunkedRemaining : Nat → Option (List String)
  doneMarker : Nat → String → Bool

/-- Point update of a level-indexed artifact slot. -/
def upd {α : Type} (f : Nat → Option α) (n : Nat) (v : Option α) :
    Nat → Option α :=
  fun m => if m = n then v else f m

/-- The artifact writers remove the file when the row list is empty
(`unlinkIfExists`) and overwrite it otherwise. -/
def artWrite {α : Type} (rows : List α) : Option (List α) :=
  if rows.isEmpty then none else some rows

/-- A stored file row viewed as an incoming candidate (used when state
rows or artifact rows are fed back through `mergeFilesPreferSource`). -/
def rowToCand (r : FileRow) : FileCand :=
  ⟨r.url, some r.ext, r.source_page_url⟩

/-- `{url, ext: (f.ext || extFromUrl(f.url) || "bin").toLowerCase(),
source_page_url}` — the row shape written into `files-level-L.json`. -/
def fileRowForArtifact (f : FileRow) : FileRow :=
  ⟨f.url, jsToLower (if f.ext.isEmpty then extFromUrl f.url else f.ext), f.source_page_url⟩

/-! ## POST /dedupe/level (src/src/routes/dedupe.js) -/

/-- The request body of `POST /dedupe/level`; `visited`/`pages` are the
URL strings extracted from the incoming rows.  `update` models
`body.update === false ? false : true` (so it defaults to `true`). -/
structure DedupeReq where
  level : Nat
  visited : List String
  pages : List String
  files : List FileCand
  update : Bool
  full : Bool
  prune : Bool
  replace : Bool
deriving DecidableEq

/-- The response fields of `POST /dedupe/level` the claims refer to. -/
structure DedupeResp where
  ok : Bool
  status : Nat
  wroteNextUrls : Nat
  wroteFiles : Nat
deriving DecidableEq

/-- The merged level record the handler persists into
`state.levels[level]`: the incoming visited/pages/files, accumulated onto
any existing level entry unless `replace` is set. -/
def dedupeMergedLevel (st : DomainState) (req : DedupeReq) : LevelRec :=
  let visited := stableUniqUrls req.visited
  let pages := stableUniqUrls req.pages
  let filesMerged := mergeFilesPreferSource req.files
  match (if req.replace then none else lookupLevel st.levels req.level) with
  | none => ⟨visited, pages, filesMerged⟩
  | some prev =>
    ⟨stableUniqUrls (prev.visited ++ visited),
     stableUniqUrls (prev.pages ++ pages),
     mergeFilesPreferSource ((prev.files ++ filesMerged).map rowToCand)⟩

/-- `nextPages`: the merged discovered pages minus everything seen at
stored levels `< level` and minus this level's merged visited set. -/
def nextFrontier (levels : List (Nat × LevelRec)) (level : Nat) (merged : LevelRec) :
    List String :=
  let seenPages := (computeSeenUpTo levels (level - 1)).1
  merged.pages.filter (fun u => ¬ (u ∈ seenPages ∨ u ∈ merged.visited))

/-- `filesOut`: the merged file candidates whose URL was not seen as a
file URL at stored levels `< level`. -/
def newFilesOut (levels : List (Nat × LevelRec)) (level : Nat) (merged : LevelRec) :
    List FileRow :=
  let seenFiles := (computeSeenUpTo levels (level - 1)).2
  merged.files.filter (fun f => ¬ f.url ∈ seenFiles)

/-- The `POST /dedupe/level` handler (logging omitted).  Default mode is
update/diff with incremental patching; `full` forces a full overwrite,
`update = false` disables diffs and patching, `prune` applies removals
while patching. -/
def dedupeLevel (st : DomainState) (req : DedupeReq) : DomainState × DedupeResp :=
  if req.level < 1 then (st, ⟨false, 400, 0, 0⟩)
  else
    let merged := dedupeMergedLevel st req
    let levels' := setLevel st.levels req.level merged
    let nextPages := nextFrontier levels' req.level merged
    let filesOut := newFilesOut levels' req.level merged
    let filesForArtifact := filesOut.map fileRowForArtifact
    let nextLevel := req.level + 1
    let st1 := { st with levels := levels' }
    if ¬ req.update then
      let st2 := { st1 with
        urlArts := upd st1.urlArts nextLevel (artWrite nextPages),
        fileArts := upd st1.fileArts req.level (artWrite filesForArtifact) }
      (st2, ⟨true, 200, nextPages.length, filesOut.length⟩)
    else
      let oldUrls := ((st.urlArts nextLevel).getD []).filter (fun u => ¬ u.isEmpty)
      let oldFiles := ((st.fileArts req.level).getD []).filter (fun f => ¬ f.url.isEmpty)
      let addedUrls := nextPages.filter (fun u => ¬ u.isEmpty ∧ ¬ u ∈ oldUrls)
      let removedUrls := oldUrls.filter (fun u => ¬ u ∈ nextPages)
      let addedFiles := filesForArtifact.filter
        (fun f => ¬ f.url.isEmpty ∧ ¬ oldFiles.any (fun g => g.url = f.url))
      let removedFiles := oldFiles.filter
        (fun f => ¬ filesForArtifact.any (fun g => g.url = f.url))
      let urlRows := addedUrls.map (fun u => (⟨u, "added"⟩ : DiffUrlRow))
      let urlRemovedRows := removedUrls.map (fun u => (⟨u, "removed"⟩ : DiffUrlRow))
      let fileRows := addedFiles.map (fun f =>
        (⟨f.url, "added", some (if f.ext.isEmpty then extFromUrl f.url else f.ext),
          f.source_page_url⟩ : DlRow))
      let fileRemovedRows := removedFiles.map (fun f =>
        (⟨f.url, "removed", some (if f.ext.isEmpty then extFromUrl f.url else f.ext),
          f.source_page_url⟩ : DlRow))
      let st2 := { st1 with
        urlsDiff := upd st1.urlsDiff nextLevel (artWrite urlRows),
        urlsRemoved := upd st1.urlsRemoved nextLevel (artWrite urlRemovedRows),
        filesDiff := upd st1.filesDiff req.level (artWrite fileRows),
        filesRemoved := upd st1.filesRemoved req.level (artWrite fileRemovedRows) }
      let patch := ¬ req.full
      let finalNextPages :=
        if patch then
          let patched := stableUniqUrls (oldUrls ++ addedUrls)
          if req.prune then patched.filter (fun u => ¬ u ∈ removedUrls) else patched
        else nextPages
      let finalFiles :=
        if patch then
          let patched := mergeFilesPreferSource ((oldFiles ++ addedFiles).map rowToCand)
          let patched2 :=
            if req.prune then
              patched.filter (fun f => ¬ removedFiles.any (fun g => g.url = f.url))
            else patched
          patched2.map fileRowForArtifact
        else filesForArtifact
      let st3 := { st2 with
        urlArts := upd st2.urlArts nextLevel (artWrite finalNextPages),
        fileArts := upd st2.fileArts req.level (artWrite finalFiles) }
      (st3, ⟨true, 200, finalNextPages.length, filesOut.length⟩)

/-! ## Streaming runs: finalizeDiscoveryRun (src/src/routes/runs.js) -/

/-- One JSONL record of a streaming discovery bucket
(`{ts, level, run_id, visited, pages, files}`; only the URL payloads
matter to finalization). -/
structure BucketRec where
  visited : List String
  pages : List String
  files : List FileCand
deriving DecidableEq

/-- Insertion-ordered `Set.add` over raw URL strings, skipping falsy
entries. -/
def rawUniqAppend (acc : List String) (xs : List String) : List String :=
  xs.foldl (fun a u => if u.isEmpty then a else if u ∈ a then a else a ++ [u]) acc

/-- `{...prev, ...f}`: fields present on the later record win. -/
def bucketMergeCand (prev f : FileCand) : FileCand :=
  ⟨f.url,
   match f.ext with | some e => some e | none => prev.ext,
   match f.source_page_url with | some s => some s | none => prev.source_page_url⟩

/-- One step of the `files` map accumulation of `readDiscoveryJsonl`. -/
def bucketFilesStep (acc : List FileCand) (f : FileCand) : List FileCand :=
  if f.url.isEmpty then acc
  else
    match acc.find? (fun g => g.url = f.url) with
    | none => acc ++ [f]
    | some prev => acc.map (fun g => if g.url = f.url then bucketMergeCand prev f else g)

/-- `readDiscoveryJsonl`: replay the bucket into
(visited set, pages set, files map), all insertion-ordered. -/
def readDiscoveryJsonl (bucket : List BucketRec) :
    List String × List String × List FileCand :=
  bucket.foldl
    (fun acc r =>
      (rawUniqAppend acc.1 r.visited,
       rawUniqAppend acc.2.1 r.pages,
       r.files.foldl bucketFilesStep acc.2.2))
    ([], [], [])

/-- The response fields of a finalize run. -/
structure FinalizeResp where
  ok : Bool
  visited : Nat
  pages : Nat
  nextPages : Nat
  files : Nat
  remaining : Nat
deriving DecidableEq

/-- The deduped level record a finalize run persists: the bucket's
visited/pages sets through `stableUniqUrls` and its files map through
`mergeFilesPreferSource`. -/
def finalizeMergedLevel (bucket : List BucketRec) : LevelRec :=
  ⟨stableUniqUrls (readDiscoveryJsonl bucket).1,
   stableUniqUrls (readDiscoveryJsonl bucket).2.1,
   mergeFilesPreferSource (readDiscoveryJsonl bucket).2.2⟩

/-- `finalizeDiscoveryRun` of `src/src/routes/runs.js`: reduce the JSONL
bucket, overwrite the level's state entry, write the next-level URL
artifact and this level's file artifact, chunk the next-level output,
write the remaining list for this level (input artifact minus visited)
with its chunks, and set the `.done` marker. -/
def finalizeDiscoveryRun (st : DomainState) (bucket : List BucketRec)
    (level : Nat) (runId : String) : DomainState × FinalizeResp :=
  let merged := finalizeMergedLevel bucket
  let visited := merged.visited
  let pages := merged.pages
  let levels' := setLevel st.levels level merged
  let nextPages := nextFrontier levels' level merged
  let filesOut := newFilesOut levels' level merged
  let filesForArtifact := filesOut.map fileRowForArtifact
  -- The source reads the level's input artifact after writing the
  -- next-level artifact; the two keys always differ (L ≠ L+1), so the
  -- read is modelled directly against the incoming store.
  let inputUrls := ((st.urlArts level).getD []).filter (fun u => ¬ u.isEmpty)
  let remaining :=
    if inputUrls.isEmpty then []
    else (stableUniqUrls inputUrls).filter (fun u => ¬ u ∈ visited)
  ({ st with
     levels := levels',
     urlArts := upd st.urlArts (level + 1) (artWrite nextPages),
     fileArts := upd st.fileArts level (artWrite filesForArtifact),
     chunkedNext :=
       if nextPages.isEmpty then st.chunkedNext
       else upd st.chunkedNext (level + 1) (some nextPages),
     remainingUrls := upd st.remainingUrls level (artWrite remaining),
     chunkedRemaining :=
       if remaining.isEmpty then st.chunkedRemaining
       else upd st.chunkedRemaining level (some remaining),
     doneMarker := fun n r => if n = level ∧ r = runId then true else st.doneMarker n r },
   ⟨true, visited.length, pages.length, nextPages.length,
    filesForArtifact.length, remaining.length⟩)

/-! ## Auto-finalize watchdog (src/src/lib/autofinalize.js) -/

/-- What the watchdog sees of one `runs/<domain>/*.jsonl` bucket file. -/
structure RunBucketFile where
  level : Nat
  runId : String
  hasDoneMarker : Bool
  sizeBytes : Nat
  ageMs : Nat
deriving DecidableEq

/-- The watchdog's per-file trigger test: skip buckets with a `.done`
marker, empty buckets, and buckets younger than the idle threshold. -/
def autoFinalizeWants (idleMs : Nat) (b : RunBucketFile) : Bool :=
  ¬ b.hasDoneMarker && b.sizeBytes ≠ 0 && idleMs ≤ b.ageMs

/-- One watchdog tick's selection over the scanned bucket files. -/
def autoFinalizeScan (idleMs : Nat) (bs : List RunBucketFile) : List RunBucketFile :=
  bs.filter (autoFinalizeWants idleMs)

/-! ## Generic string-keyed association maps (JS object semantics) -/

/-- `obj[k] = v` preserving key insertion order. -/
def setAssoc {α : Type} (xs : List (String × α)) (k : String) (v : α) :
    List (String × α) :=
  if xs.any (fun p => p.1 = k) then xs.map (fun p => if p.1 = k then (k, v) else p)
  else xs ++ [(k, v)]

/-- `obj[k]` lookup. -/
def lookupAssoc {α : Type} (xs : List (String × α)) (k : String) : Option α :=
  (xs.find? (fun p => p.1 = k)).map (·.2)

/-! ## Content hashing and path helpers

SHA-256 is an external crypto primitive; the model identifies a content
with its hash (idealized collision-free hashing). -/

/-- Idealized content hash. -/
def sha256 (content : String) : String := content

/-- Split a path at its last `/`: (directory, basename). -/
def lastSlashSplit (l : List Char) : List Char × List Char :=
  let base := (l.reverse.takeWhile (fun c => ¬ c = '/')).reverse
  if l.contains '/' then (l.take (l.length - base.length - 1), base) else ([], base)

/-- `path.basename`. -/
def pathBasename (p : String) : String :=
  ⟨(lastSlashSplit p.data).2⟩

/-- `path.dirname` (modelled as the prefix before the last slash). -/
def pathDirname (p : String) : String :=
  ⟨(lastSlashSplit p.data).1⟩

/-- Split a basename at its last `.` the way `path.extname` does
(a dot at position 0 yields no extension). -/
def splitExtDot (base : List Char) : List Char × List Char :=
  let after := base.reverse.takeWhile (fun c => ¬ c = '.')
  if after.length = base.length then (base, [])
  else
    let stemLen := base.length - after.length - 1
    if stemLen = 0 then (base, [])
    else (base.take stemLen, base.drop stemLen)

/-- `path.join(dir, base + "__dup" + i + ext)` for a target path. -/
def insertDupSuffix (target : String) (i : Nat) : String :=
  let (dir, base) := lastSlashSplit target.data
  let (stem, ext) := splitExtDot base
  let name := stem ++ ("__dup".data) ++ (toString i).data ++ ext
  ⟨if dir.isEmpty then name else dir ++ '/' :: name⟩

/-! ## PDF sniffing (src/src/lib/pdfguard.js) -/

/-- `sniffIsPdf`: at least five bytes beginning with `%PDF-`. -/
def sniffIsPdf (c : String) : Bool :=
  if c.length < 5 then false else strStartsWith c "%PDF-"

/-- `looksLikeHtml`: the first 512 bytes, trimmed and lower-cased, start
with a doctype or html tag or contain a head/title tag. -/
def looksLikeHtml (c : String) : Bool :=
  let head : String := jsToLower ⟨jsTrim (c.data.take 512)⟩
  strStartsWith head "<!doctype html" || strStartsWith head "<html" ||
    decide ("<head".data <:+: head.data) || decide ("<title".data <:+: head.data)

/-! ## Upload & content-hash registry (upload router, sources variant) -/

/-- One provenance observation `{url, source_page_url, level, ts}`. -/
structure SourceObs where
  url : String
  source_page_url : Option String
  level : Nat
  ts : Nat
deriving DecidableEq

/-- A registry record of `downloaded_hash_index.json`. -/
structure HashRec where
  sha256 : String
  saved_to : Option String
  bytes : Nat
  ext : String
  termKey : String
  electorateFolder : Option String
  first_seen_ts : Option Nat
  last_seen_ts : Nat
  note : String
  sources : List SourceObs
deriving DecidableEq

/-- The identity of an observation within `sources`:
`` `${url}::${source_page_url || ""}::${level}` ``. -/
def obsKey (o : SourceObs) : String × String × Nat :=
  (o.url, o.source_page_url.getD "", o.level)

/-- `addSourceObservation`: append the observation unless its
`(url, source_page_url, level)` key is already present. -/
def addSourceObservation (r : HashRec) (o : SourceObs) : HashRec :=
  if (r.sources.map obsKey).contains (obsKey o) then r
  else
    { r with sources := r.sources ++
        [{ o with source_page_url := if optTruthy o.source_page_url then o.source_page_url else none }] }

/-- One `{sha256, saved_to}` entry of a per-level manifest. -/
structure ManifestEntry where
  sha256 : String
  saved_to : String
deriving DecidableEq

/-- `appendToLevelManifest`: append unless the `(sha256, saved_to)` key
is already present. -/
def appendToLevelManifest (m : List ManifestEntry) (e : ManifestEntry) :
    List ManifestEntry :=
  if m.any (fun x => x.sha256 = e.sha256 ∧ x.saved_to = e.saved_to) then m
  else m ++ [e]

/-- The output of the routing policy `resolveSavePath`. -/
structure RouteOut where
  outPath : String
  finalDir : String
  termDir : String
  filename : String
  ext : String
  termKey : String
  electorateFolder : Option String
deriving DecidableEq

/-- A routing policy: `(url, ext?, source_page_url?, filenameOverride?) ↦
placement`.  The electoral policy of `src/src/lib/routing.js` is one
instance; the spec requires only the interface. -/
def RouteFn : Type :=
  String → Option String → Option String → Option String → RouteOut

/-- The quarantine path `termDir/_bad/<base>__<note>.html` with path
separators replaced by `_` in the file name. -/
def badPdfPath (r : RouteOut) (note : String) : String :=
  let base :=
    if strEndsWith (jsToLower r.filename) ".pdf"
    then (⟨r.filename.data.take (r.filename.length - 4)⟩ : String)
    else r.filename
  let badName := (base ++ "__" ++ note ++ ".html").data.map
    (fun c => if c = '/' ∨ c = '\\' then '_' else c)
  r.termDir ++ "/_bad/" ++ (⟨badName⟩ : String)

/-- The persistent state touched by `POST /upload/file`: the hash
registry, the download tree, and the per-level manifests. -/
structure UploadState where
  idx : List (String × HashRec)
  disk : String → Option String
  manifests : Nat → List ManifestEntry

/-- The body of `POST /upload/file` (`content` is the decoded
`content_base64` payload). -/
structure UploadReq where
  url : String
  content : String
  ext : Option String
  filename : Option String
  source_page_url : Option String
  bfs_level : Nat
deriving DecidableEq

/-- The response fields of `POST /upload/file` the claims refer to. -/
structure UploadResp where
  ok : Bool
  status : Nat
  skipped : Bool
  note : String
  saved_to : Option String
  sha256 : String
deriving DecidableEq

/-- The new-canonical-save tail of the upload handler (also taken when a
registry record exists but its file is missing on disk). -/
def uploadSaveNew (r : RouteOut) (now : Nat) (st : UploadState) (req : UploadReq)
    (sha : String) : UploadState × UploadResp :=
  let shouldBePdf := r.ext = "pdf" || strEndsWith (jsToLower r.filename) ".pdf"
  let badHtml := looksLikeHtml req.content
  let quarantine := shouldBePdf ∧ ¬ sniffIsPdf req.content
  let note := if quarantine then (if badHtml then "bad_pdf_got_html" else "bad_pdf_not_pdf") else "ok"
  let outAbs := if quarantine then badPdfPath r note else r.outPath
  let disk' := fun q => if q = outAbs then some req.content else st.disk q
  let newRec : HashRec :=
    ⟨sha, some outAbs, req.content.length, r.ext, r.termKey,
     (if optTruthy r.electorateFolder then r.electorateFolder else none),
     some now, now, note,
     [⟨req.url, (if optTruthy req.source_page_url then req.source_page_url else none),
       req.bfs_level, now⟩]⟩
  ({ idx := setAssoc st.idx sha newRec,
     disk := disk',
     manifests := fun n =>
       if n = req.bfs_level then appendToLevelManifest (st.manifests n) ⟨sha, outAbs⟩
       else st.manifests n },
   ⟨true, 200, false, note, some outAbs, sha⟩)

/-- The `POST /upload/file` handler of the sources-based upload router:
hash the bytes, route them, and either register a new canonical file or
record a duplicate-content observation (relocating the existing file when
the new routing is more specific, i.e. gains an electorate folder). -/
def uploadFile (route : RouteFn) (now : Nat) (st : UploadState) (req : UploadReq) :
    UploadState × UploadResp :=
  if req.bfs_level < 1 then (st, ⟨false, 400, false, "", none, ""⟩)
  else if req.url.isEmpty ∨ req.content.isEmpty then (st, ⟨false, 400, false, "", none, ""⟩)
  else
    let sha := sha256 req.content
    let r := route req.url req.ext req.source_page_url req.filename
    match lookupAssoc st.idx sha with
    | some ex =>
      match ex.saved_to with
      | some p =>
        if (st.disk p).isSome then
          -- duplicate content with the canonical file present on disk
          let ex1 := { ex with
            last_seen_ts := now,
            first_seen_ts := some (ex.first_seen_ts.getD now) }
          let shouldBePdf := r.ext = "pdf" || strEndsWith (jsToLower r.filename) ".pdf"
          let wantElect := optTruthy r.electorateFolder
          let haveElect := optTruthy ex.electorateFolder
          let relocating := wantElect ∧ ¬ haveElect
          let badHtml := looksLikeHtml req.content
          let quarantine := shouldBePdf ∧ ¬ sniffIsPdf req.content
          let note :=
            if quarantine then
              (if badHtml then "promoted_bad_pdf_got_html" else "promoted_bad_pdf_not_pdf")
            else "promoted_to_electorate"
          let target := if quarantine then badPdfPath r note else r.outPath
          let ex2 :=
            if relocating then
              { ex1 with
                saved_to := some target,
                termKey := r.termKey,
                electorateFolder := if optTruthy r.electorateFolder then r.electorateFolder else none,
                ext := r.ext,
                note := note }
            else ex1
          let disk2 :=
            if relocating then
              fun q => if q = target then st.disk p else if q = p then none else st.disk q
            else st.disk
          let ex3 := addSourceObservation ex2 ⟨req.url, req.source_page_url, req.bfs_level, now⟩
          ({ idx := setAssoc st.idx sha ex3,
             disk := disk2,
             manifests := fun n =>
               if n = req.bfs_level then
                 appendToLevelManifest (st.manifests n) ⟨sha, ex3.saved_to.getD ""⟩
               else st.manifests n },
           ⟨true, 200, true, "duplicate_content_skipped", ex3.saved_to, sha⟩)
        else uploadSaveNew r now st req sha
      | none => uploadSaveNew r now st req sha
    | none => uploadSaveNew r now st req sha

/-! ## Reconciliation: resortDownloads phase A (src/src/lib/resort.js)

This is the registry-driven walk of the named file `src/src/lib/resort.js`
(the variant whose occupied-target rule is: same sha ⇒ dedupe; occupant
indexed ⇒ suffix the incoming file; occupant unindexed ⇒ displace the
occupant and take the canonical path).  That variant has no disk-first
phase B sweep.  Only `--apply` mode is modelled (dry-run performs no
mutation); the conflict policy is the default `suffix`. -/

/-- The persistent state `resort-downloads` touches. -/
structure ResortState where
  idx : List (String × HashRec)
  disk : String → Option String
  manifests : Nat → List ManifestEntry

/-- `pickBestSource`: the observation with the strictly greatest
timestamp, the earliest such on ties; `none` for an empty list. -/
def pickBestSource (sources : List SourceObs) : Option SourceObs :=
  match sources with
  | [] => none
  | s0 :: rest => some (rest.foldl (fun best s => if best.ts < s.ts then s else best) s0)

/-- `ensureUniqueTarget`: the first free `__dupN` slot for `1 ≤ N ≤ 999`,
or `none` when all are taken. -/
def ensureUniqueTarget (disk : String → Option String) (targetAbs : String) :
    Option String :=
  ((List.range' 1 999).find? (fun i => (disk (insertDupSuffix targetAbs i)).isNone)).map
    (insertDupSuffix targetAbs)

/-- `updateLevelManifests`: in every level manifest, repoint entries of
this sha from the old path to the new one. -/
def updateLevelManifests (m : Nat → List ManifestEntry) (sha oldRel newRel : String) :
    Nat → List ManifestEntry :=
  fun n => (m n).map (fun e =>
    if e.sha256 = sha ∧ e.saved_to = oldRel then ⟨e.sha256, newRel⟩ else e)

/-- One iteration of the phase-A registry walk in `--apply` mode. -/
def resortApplyStep (route : RouteFn) (now : Nat) (st : ResortState) (sha : String) :
    ResortState :=
  match lookupAssoc st.idx sha with
  | none => st
  | some r0 =>
    match r0.saved_to with
    | none => st
    | some oldRel =>
      if (st.disk oldRel).isNone then st  -- action: missing
      else
        match pickBestSource r0.sources with
        | none => st  -- action: no_source
        | some src =>
          let rt := route src.url (if r0.ext.isEmpty then none else some r0.ext)
            src.source_page_url (some (pathBasename oldRel))
          let desired := rt.outPath
          let r1 := { r0 with
            termKey := rt.termKey,
            electorateFolder := if optTruthy rt.electorateFolder then rt.electorateFolder else none,
            ext := rt.ext }
          let st1 := { st with idx := setAssoc st.idx sha r1 }
          if desired = oldRel then st1
          else if (st1.disk desired).isNone then
            -- fast path: empty target, move
            let r2 := { r1 with saved_to := some desired, last_seen_ts := now,
                                first_seen_ts := some (r1.first_seen_ts.getD now) }
            { idx := setAssoc st1.idx sha r2,
              disk := fun q =>
                if q = desired then st1.disk oldRel
                else if q = oldRel then none else st1.disk q,
              manifests := updateLevelManifests st1.manifests sha oldRel desired }
          else
            let occSha := sha256 ((st1.disk desired).getD "")
            if occSha = sha then
              -- same content at destination: dedupe, delete the old copy
              let r2 := { r1 with saved_to := some desired, last_seen_ts := now,
                                  first_seen_ts := some (r1.first_seen_ts.getD now) }
              { idx := setAssoc st1.idx sha r2,
                disk := fun q => if q = oldRel then none else st1.disk q,
                manifests := updateLevelManifests st1.manifests sha oldRel desired }
            else if (lookupAssoc st1.idx occSha).isSome then
              -- occupant is indexed: do not overwrite, suffix THIS file
              match ensureUniqueTarget st1.disk desired with
              | none => st1  -- action: conflict_skip
              | some dupAbs =>
                let r2 := { r1 with saved_to := some dupAbs, last_seen_ts := now,
                                    first_seen_ts := some (r1.first_seen_ts.getD now) }
                { idx := setAssoc st1.idx sha r2,
                  disk := fun q =>
                    if q = dupAbs then st1.disk oldRel
                    else if q = oldRel then none else st1.disk q,
                  manifests := updateLevelManifests st1.manifests sha oldRel dupAbs }
            else
              -- occupant is NOT indexed: displace it, then take the canonical path
              match ensureUniqueTarget st1.disk desired with
              | none => st1  -- action: conflict_skip
              | some displaceAbs =>
                let diskA := fun q =>
                  if q = displaceAbs then st1.disk desired
                  else if q = desired then none else st1.disk q
                let r2 := { r1 with saved_to := some desired, last_seen_ts := now,
                                    first_seen_ts := some (r1.first_seen_ts.getD now) }
                { idx := setAssoc st1.idx sha r2,
                  disk := fun q =>
                    if q = desired then diskA oldRel
                    else if q = oldRel then none else diskA q,
                  manifests := updateLevelManifests st1.manifests sha oldRel desired }

/-- `resortDownloads --apply` (phase A): walk the registry entries in key
order, applying the step to each sha. -/
def resortDownloadsApply (route : RouteFn) (now : Nat) (st : ResortState) :
    ResortState :=
  (st.idx.map Prod.fst).foldl (resortApplyStep route now) st

/-! ## JSON persistence (src/src/lib/fsx.js) -/

/-- A filesystem operation performed by a JSON writer. -/
inductive FsOp where
  | mkdirRec : String → FsOp
  | writeFileDirect : String → String → FsOp
  | renameFile : String → String → FsOp
deriving DecidableEq

/-- The operation trace of `writeJson` in `src/src/lib/fsx.js`:
`ensureDir(path.dirname(p))` followed by a single direct
`fs.writeFileSync(p, …)` of the serialized document. -/
def writeJsonOps (p doc : String) : List FsOp :=
  [.mkdirRec (pathDirname p), .writeFileDirect p doc]

/-- The operation trace of the atomic `writeJson` variant present
elsewhere in the repository (commented "Atomic JSON write: write temp
file then rename into place"): write a temp file in the same directory,
then rename it over the target.  `tmpName` stands for the
pid/timestamp/random temp file name. -/
def atomicWriteJsonOps (p doc tmpName : String) : List FsOp :=
  [.mkdirRec (pathDirname p), .writeFileDirect tmpName doc, .renameFile tmpName p]

/-- A trace is an atomic JSON write of `doc` to `p` when it first writes
the document to some other path and then renames that path over the
target, never writing the target directly. -/
def isAtomicJsonWriteTrace (ops : List FsOp) (p doc : String) : Prop :=
  ∃ tmp, ¬ tmp = p ∧ FsOp.writeFileDirect tmp doc ∈ ops ∧
    FsOp.renameFile tmp p ∈ ops ∧ ∀ d, ¬ FsOp.writeFileDirect p d ∈ ops

/-! ## Mutation-lock usage of the route handlers

Static facts read off the handler sources: whether a handler performs a
read-modify-write of the persistent shared state named by the spec
(state.json, hash registry, per-level manifests, streaming JSONL buckets,
probe index), whether its body is wrapped in `withLock(...)`, and whether
`withLock` is actually imported in that module (a `withLock` call without
the import throws a `ReferenceError` at request time, so the critical
section never runs under the lock). -/

structure RouteHandler where
  name : String
  mutatesPersistentState : Bool
  wrapsBodyInWithLock : Bool
  withLockInScope : Bool
deriving DecidableEq

/-- A handler actually serializes its body under the process-wide
mutation mutex only if it both wraps the body in `withLock` and has
`withLock` in scope. -/
def acquiresMutationMutex (h : RouteHandler) : Bool :=
  h.wrapsBodyInWithLock && h.withLockInScope

/-- `POST /dedupe/level` (src/src/routes/dedupe.js): loads, merges and
saves `state.json` and rewrites artifacts; `withLock` is neither imported
nor called. -/
def dedupeLevelHandler : RouteHandler :=
  ⟨"POST /dedupe/level", true, false, false⟩

/-- `POST /probe/meta` (probe router): read-modify-writes the probe index
and diff artifacts; `withLock` is neither imported nor called. -/
def probeMetaHandler : RouteHandler :=
  ⟨"POST /probe/meta", true, false, false⟩

/-- `POST /upload/file`, sources-based upload router: wraps the registry
and manifest update in `withLock`, which it imports from `../lib/lock`. -/
def uploadFileSourcesHandler : RouteHandler :=
  ⟨"POST /upload/file (sources variant)", true, true, true⟩

/-- `POST /upload/file`, levels-based upload router variant: wraps its
body in `withLock(...)` but never imports `withLock`, so the call throws
at request time instead of serializing. -/
def uploadFileNoImportHandler : RouteHandler :=
  ⟨"POST /upload/file (levels variant)", true, true, false⟩

/-- `POST /runs/start/urls` (src/src/routes/runs.js). -/
def runsStartUrlsHandler : RouteHandler :=
  ⟨"POST /runs/start/urls", true, true, true⟩

/-- `POST /runs/append/urls` (src/src/routes/runs.js). -/
def runsAppendUrlsHandler : RouteHandler :=
  ⟨"POST /runs/append/urls", true, true, true⟩

/-- `POST /runs/finalize/urls` (src/src/routes/runs.js). -/
def runsFinalizeUrlsHandler : RouteHandler :=
  ⟨"POST /runs/finalize/urls", true, true, true⟩

/-- `POST /runs/start/files` (src/src/routes/runs.js). -/
def runsStartFilesHandler : RouteHandler :=
  ⟨"POST /runs/start/files", true, true, true⟩

/-- `POST /runs/chunk/files` (src/src/routes/runs.js). -/
def runsChunkFilesHandler : RouteHandler :=
  ⟨"POST /runs/chunk/files", true, true, true⟩

/-- The mutating handlers of the sink's HTTP surface. -/
def sinkMutatingHandlers : List RouteHandler :=
  [dedupeLevelHandler, probeMetaHandler, uploadFileSourcesHandler,
   uploadFileNoImportHandler, runsStartUrlsHandler, runsAppendUrlsHandler,
   runsFinalizeUrlsHandler, runsStartFilesHandler, runsChunkFilesHandler]

/-! ## Files reconciliation (src/src/lib/reconcile_files.js)

`reconcile_files.js` destructures `writeFilesForLevel` and
`writeChunkedFiles` from `require("./artifacts")`, but
`src/src/lib/artifacts.js` exports neither (its `module.exports` lists
exactly the five names below, and the two functions are defined nowhere
in the repository).  Calling the destructured `undefined` throws a
`TypeError` after the remaining set has been computed. -/

/-- The names exported by `src/src/lib/artifacts.js`. -/
def artifactsModuleExports : List String :=
  ["writeUrlArtifact", "writeFileArtifact", "writeRowListArtifact",
   "writeUrlsForLevel", "writeChunkedUrls"]

/-- The names `src/src/lib/reconcile_files.js` destructures from the
artifacts module. -/
def reconcileFilesImports : List String :=
  ["writeFilesForLevel", "writeChunkedFiles"]

/-- The counts reported by a (successful) reconcile run. -/
structure ReconcileResult where
  expected : Nat
  downloaded : Nat
  remaining : Nat
  status : String
deriving DecidableEq

/-- `readExpectedFileUrls`: the URLs of `files-level-L.json`, first row
included, deduplicated via `stableUniqUrls`. -/
def readExpectedFileUrls (fileArts : Nat → Option (List FileRow)) (level : Nat) :
    List String :=
  stableUniqUrls ((((fileArts level).getD []).map (·.url)).filter (fun u => ¬ u.isEmpty))

/-- `readDownloadedFileUrlsForLevel`: every source-observation URL of the
registry whose level equals the requested level (a membership set). -/
def readDownloadedFileUrlsForLevel (idx : List (String × HashRec)) (level : Nat) :
    List String :=
  (idx.map (fun p =>
    ((p.2.sources.filter (fun s => ¬ s.url.isEmpty ∧ s.level = level)).map (·.url)))).flatten

/-- `reconcileFilesLevel`: compute expected/downloaded/remaining, then
call `writeFilesForLevel` — which is `undefined`, so the call throws; the
`.ok` result describes what a run would report if the imports resolved. -/
def reconcileFilesLevel (fileArts : Nat → Option (List FileRow))
    (idx : List (String × HashRec)) (level : Nat) :
    Except String ReconcileResult :=
  let expected := readExpectedFileUrls fileArts level
  let downloaded := readDownloadedFileUrlsForLevel idx level
  let remaining := expected.filter (fun u => ¬ u ∈ downloaded)
  if reconcileFilesImports.all (fun f => artifactsModuleExports.contains f) then
    .ok ⟨expected.length, downloaded.dedup.length, remaining.length,
         if remaining.isEmpty then "COMPLETE" else "INCOMPLETE"⟩
  else .error "TypeError: writeFilesForLevel is not a function"

/-- The response summarized to status code and top-level `ok`. -/
structure ChunkFilesResp where
  ok : Bool
  status : Nat
deriving DecidableEq

/-- The `POST /runs/chunk/files` handler for one domain: validate the
level, skip domains without the expected artifact, otherwise reconcile;
a thrown reconcile error is caught and surfaces as a 500 `{ok:false}`. -/
def chunkFilesRoute (fileArts : Nat → Option (List FileRow))
    (idx : List (String × HashRec)) (level : Nat) : ChunkFilesResp :=
  if level < 1 then ⟨false, 400⟩
  else if (fileArts level).isNone then ⟨true, 200⟩  -- MISSING_EXPECTED result row
  else
    match reconcileFilesLevel fileArts idx level with
    | .ok _ => ⟨true, 200⟩
    | .error _ => ⟨false, 500⟩

/-! ## Probe & diff (probe router) -/

/-- The raw HEAD / ranged-GET metadata of a probe. -/
structure RawSig where
  etag : Option String
  last_modified : Option String
  content_length : Option Int
  content_type : Option String
deriving DecidableEq

/-- A derived signature (`source` records which probe it came from). -/
structure Sig where
  source : String
  etag : Option String
  last_modified : Option String
  content_length : Option Int
  content_type : Option String
deriving DecidableEq

/-- `x || null` on an optional string. -/
def normStrOpt (o : Option String) : Option String :=
  if optTruthy o then o else none

/-- `sigFrom`: normalize raw fields with `|| null`. -/
def sigFrom (x : RawSig) : RawSig :=
  ⟨normStrOpt x.etag, normStrOpt x.last_modified, x.content_length, normStrOpt x.content_type⟩

/-- JS truthiness of the useful-signature test
(`etag || last_modified || content_length`, where a zero length is
falsy). -/
def sigUseful (s : RawSig) : Bool :=
  optTruthy s.etag || optTruthy s.last_modified ||
    (match s.content_length with | some n => ¬ n = 0 | none => false)

/-- Attach a source tag to signature fields. -/
def mkSig (src : String) (f : RawSig) : Sig :=
  ⟨src, f.etag, f.last_modified, f.content_length, f.content_type⟩

/-- `pickSignature`: prefer HEAD when it carries something useful, else
the ranged GET, else whatever is present. -/
def pickSignature (head gr : Option RawSig) : Sig :=
  let hs := head.map sigFrom
  let gs := gr.map sigFrom
  match hs with
  | some s =>
    if sigUseful s then mkSig "head" s
    else
      match gs with
      | some g => if sigUseful g then mkSig "get_range" g else mkSig "head" s
      | none => mkSig "head" s
  | none =>
    match gs with
    | some g => mkSig "get_range" g
    | none => mkSig "get_range" ⟨none, none, none, none⟩

/-- `sigChanged` with a possibly-missing prior signature: a missing prior
compares as changed against the (always present) new signature; otherwise
the four fields are compared element-wise. -/
def sigChangedFromPrev (prev : Option Sig) (b : Sig) : Bool :=
  match prev with
  | none => true
  | some a =>
    ¬ (normStrOpt a.etag = normStrOpt b.etag ∧
       normStrOpt a.last_modified = normStrOpt b.last_modified ∧
       a.content_length = b.content_length ∧
       normStrOpt a.content_type = normStrOpt b.content_type)

/-- A per-URL entry of the probe index. -/
structure ProbeRec where
  url : String
  last_seen_ts : Nat
  level : Option Nat
  signature : Sig
  head : Option RawSig
  get_range : Option RawSig
deriving DecidableEq

/-- The persistent state `POST /probe/meta` touches. -/
structure ProbeState where
  probeIdx : List (String × ProbeRec)
  fileArts : Nat → Option (List FileRow)
  metaDiff : Nat → Option (List DiffUrlRow)
  filesDiff : Nat → Option (List DlRow)

/-- The body of `POST /probe/meta`. -/
structure ProbeReq where
  url : String
  level : Option Nat
  head : Option RawSig
  get_range : Option RawSig
deriving DecidableEq

/-- The response fields of `POST /probe/meta` the claims refer to. -/
structure ProbeResp where
  ok : Bool
  status : Nat
  changed : Bool
deriving DecidableEq

/-- Bounded variant of the extension scan for the regex
`/\.([a-zA-Z0-9]{1,8})(?:\?|#|$)/` (fallback branch of
`inferExtFromUrl`). -/
def extScanBounded : List Char → Option String
  | [] => none
  | '.' :: t =>
    let run := t.takeWhile isExtChar
    let rest := t.dropWhile isExtChar
    if ¬ run.isEmpty ∧ run.length ≤ 8 ∧
        (rest = [] ∨ rest.head? = some '?' ∨ rest.head? = some '#') then
      some ⟨run.map Char.toLower⟩
    else extScanBounded t
  | _ :: t => extScanBounded t

/-- `inferExtFromUrl` of the probe router: on a parsable URL, match
`/\.([a-zA-Z0-9]{1,8})$/` against the pathname basename; otherwise fall
back to the unanchored scan over the whole string. -/
def inferExtFromUrl (u : String) : Option String :=
  match parseUrl u.data with
  | some parts =>
    let base := (lastSlashSplit parts.pathname).2
    let run := base.reverse.takeWhile isExtChar
    let dotNext : Bool :=
      match base.reverse.drop run.length with | '.' :: _ => true | _ => false
    if 1 ≤ run.length ∧ run.length ≤ 8 ∧ dotNext = true then
      some ⟨run.reverse.map Char.toLower⟩
    else none
  | none => extScanBounded u.data

/-- The rebuilt `files-meta-diff-level-L.json` row list: the existing
rows (default change `modified`), with the probed URL appended as
`modified` unless already present. -/
def probeMetaRows (existing : List DiffUrlRow) (url : String) : List DiffUrlRow :=
  let rows := (existing.filter (fun r => ¬ r.url.isEmpty)).map
    (fun r => (⟨r.url, if r.change.isEmpty then "modified" else r.change⟩ : DiffUrlRow))
  if rows.any (fun r => r.url = url) then rows else rows ++ [⟨url, "modified"⟩]

/-- The rebuilt `files-diff-level-L.json` row list: the existing
download-queue rows (default change `added`, ext re-inferred when falsy),
with the probed URL appended as `modified` unless already queued. -/
def probeDlRows (existing : List DlRow) (url : String) (ctxExt ctxSp : Option String) :
    List DlRow :=
  let rows := (existing.filter (fun r => ¬ r.url.isEmpty)).map
    (fun r => (⟨r.url, (if r.change.isEmpty then "added" else r.change),
      (if optTruthy r.ext then r.ext else inferExtFromUrl r.url),
      normStrOpt r.source_page_url⟩ : DlRow))
  if rows.any (fun r => r.url = url) then rows else rows ++ [⟨url, "modified", ctxExt, ctxSp⟩]

/-- The `POST /probe/meta` handler: log (not modelled), update the probe
index with the freshly picked signature, and when the signature changed
and a level was supplied, append the URL to the per-level
`files-meta-diff` artifact and merge it into the `files-diff` download
queue with ext/source resolved from `files-level-L.json`. -/
def probeMeta (now : Nat) (st : ProbeState) (req : ProbeReq) :
    ProbeState × ProbeResp :=
  if req.url.isEmpty then (st, ⟨false, 400, false⟩)
  else if (match req.level with | some l => decide (l < 1) | none => false) then
    (st, ⟨false, 400, false⟩)
  else
    let prev := lookupAssoc st.probeIdx req.url
    let sig := pickSignature req.head req.get_range
    let changed := sigChangedFromPrev (prev.map (·.signature)) sig
    let newRec : ProbeRec :=
      ⟨req.url, now,
       (match req.level with | some l => some l | none => prev.bind (·.level)),
       sig, req.head, req.get_range⟩
    let st1 := { st with probeIdx := setAssoc st.probeIdx req.url newRec }
    match req.level with
    | some l =>
      if changed then
        let rows := (st1.fileArts l).getD []
        let row0 := rows.head?
        let ctxRow := rows.find? (fun r => r.url = req.url)
        let ctxExt :=
          ((ctxRow.bind (fun r => if r.ext.isEmpty then none else some r.ext)) <|>
           (row0.bind (fun r => if r.ext.isEmpty then none else some r.ext))) <|>
          inferExtFromUrl req.url
        let ctxSp :=
          (ctxRow.bind (·.source_page_url)) <|> (row0.bind (·.source_page_url))
        let metaRows2 := probeMetaRows ((st1.metaDiff l).getD []) req.url
        let st2 := { st1 with metaDiff := upd st1.metaDiff l (artWrite metaRows2) }
        let dlRows2 := probeDlRows ((st2.filesDiff l).getD []) req.url ctxExt ctxSp
        let st3 := { st2 with filesDiff := upd st2.filesDiff l (artWrite dlRows2) }
        (st3, ⟨true, 200, changed⟩)
      else (st1, ⟨true, 200, changed⟩)
    | none => (st1, ⟨true, 200, changed⟩)

/-! ## Concrete states and requests used by the claim scenarios -/

/-- A fresh domain: no levels, no artifacts, no markers. -/
def emptyDomain : DomainState :=
  ⟨[], fun _ => none, fun _ => none, fun _ => none, fun _ => none, fun _ => none,
   fun _ => none, fun _ => none, fun _ => none, fun _ => none, fun _ => none,
   fun _ _ => false⟩

/-- First `POST /dedupe/level` call of the patch-mode counterexample:
level 2, visited `a`, discovered `b`, default flags. -/
def dedupeCall1 : DedupeReq :=
  ⟨2, ["https://h/a"], ["https://h/b"], [], true, false, false, false⟩

/-- Second call: `b` has now been visited at level 2, nothing new found. -/
def dedupeCall2 : DedupeReq :=
  ⟨2, ["https://h/b"], [], [], true, false, false, false⟩

/-- State after the first counterexample call. -/
def dedupeState1 : DomainState := (dedupeLevel emptyDomain dedupeCall1).1

/-- State after the second counterexample call. -/
def dedupeState2 : DomainState := (dedupeLevel dedupeState1 dedupeCall2).1

/-- The merged level-2 record of the second counterexample call. -/
def dedupeMerged2 : LevelRec := dedupeMergedLevel dedupeState1 dedupeCall2

/-- Scenario 1, level-1 run: visited the root, discovered `a`. -/
def scenarioLevel1Req : DedupeReq :=
  ⟨1, ["https://h/root"], ["https://h/a"], [], true, false, false, false⟩

/-- Scenario 1, level-2 call: visited `a`, discovered `b` and `a` again,
found `f.pdf` on page `a`. -/
def scenarioLevel2Req : DedupeReq :=
  ⟨2, ["https://h/a"], ["https://h/b", "https://h/a"],
   [⟨"https://h/f.pdf", some "pdf", some "https://h/a"⟩], true, false, false, false⟩

/-- Scenario 1 level-2 call with `full: true` (overwrite while still
emitting diffs). -/
def scenarioLevel2FullReq : DedupeReq :=
  ⟨2, ["https://h/a"], ["https://h/b", "https://h/a"],
   [⟨"https://h/f.pdf", some "pdf", some "https://h/a"⟩], true, true, false, false⟩

/-- Scenario 1 state after the level-1 run. -/
def scenarioState1 : DomainState := (dedupeLevel emptyDomain scenarioLevel1Req).1

/-- Scenario 1 state after the level-2 call. -/
def scenarioState2 : DomainState := (dedupeLevel scenarioState1 scenarioLevel2Req).1

/-- A simple instance of the routing-policy interface: place files under
`downloads/d/bucket/` named by the override or URL basename. -/
def demoRoute : RouteFn := fun url _ _ fo =>
  let name := fo.getD (pathBasename url)
  ⟨"downloads/d/bucket/" ++ name, "downloads/d/bucket", "downloads/d/bucket",
   name, extFromUrl url, "t", none⟩

/-- A fresh upload state. -/
def emptyUpload : UploadState := ⟨[], fun _ => none, fun _ => []⟩

/-- Upload scenario: `bytes_X` at level 1 from URL `U1`. -/
def uploadReq1 : UploadReq := ⟨"https://h/f1.csv", "BYTESX", none, none, none, 1⟩

/-- Upload scenario: the same `bytes_X` at level 2 from URL `U2`. -/
def uploadReq2 : UploadReq := ⟨"https://h/f2.csv", "BYTESX", none, none, none, 2⟩

/-- State after the first upload. -/
def uploadState1 : UploadState := (uploadFile demoRoute 10 emptyUpload uploadReq1).1

/-- State after the second (duplicate-content) upload. -/
def uploadState2 : UploadState := (uploadFile demoRoute 20 uploadState1 uploadReq2).1

/-- Response of the second (duplicate-content) upload. -/
def uploadResp2 : UploadResp := (uploadFile demoRoute 20 uploadState1 uploadReq2).2

/-- A registry record whose canonical file is present, used to witness the
duplicate-upload theorem. -/
def dupWitnessRec : HashRec :=
  ⟨"C", some "downloads/d/c.csv", 1, "csv", "t", none, some 0, 0, "ok", []⟩

/-- A state holding `dupWitnessRec` with its file on disk. -/
def dupWitnessState : UploadState :=
  ⟨[("C", dupWitnessRec)],
   fun p => if p = "downloads/d/c.csv" then some "C" else none,
   fun _ => []⟩

/-- A duplicate upload of the same content from a different URL. -/
def dupWitnessReq : UploadReq := ⟨"https://h/c2.csv", "C", none, none, none, 3⟩

/-- C4 scenario registry record `S`: `saved_to` points at the canonical
bucket path (the spec scenario's premise), its sources route there. -/
def resortRecS : HashRec :=
  ⟨"S", some "downloads/d/bucket/file.csv", 1, "csv", "t", none,
   some 0, 0, "ok", [⟨"https://h/file.csv", none, 1, 5⟩]⟩

/-- C4 scenario initial state: `bytes_Y` (unindexed) sits at the bucket
path, `S`'s bytes sit at `downloads/d/other/file.csv`. -/
def resortScenarioInit : ResortState :=
  ⟨[("S", resortRecS)],
   fun p =>
     if p = "downloads/d/bucket/file.csv" then some "Y"
     else if p = "downloads/d/other/file.csv" then some "S" else none,
   fun _ => []⟩

/-- C4 amended-scenario record: `saved_to` names where `S`'s bytes
actually live. -/
def resortRecS' : HashRec :=
  ⟨"S", some "downloads/d/other/file.csv", 1, "csv", "t", none,
   some 0, 0, "ok", [⟨"https://h/file.csv", none, 1, 5⟩]⟩

/-- C4 amended-scenario initial state. -/
def resortScenarioInit' : ResortState :=
  ⟨[("S", resortRecS')],
   fun p =>
     if p = "downloads/d/bucket/file.csv" then some "Y"
     else if p = "downloads/d/other/file.csv" then some "S" else none,
   fun _ => []⟩

/-- A disk on which every path is occupied, to exercise the 999-slot cap
of the duplicate-suffix scan. -/
def fullDisk : String → Option String := fun _ => some "x"

end Sink

/-! Quick sanity examples for the URL layer (concrete evaluations). -/

example : Sink.normalizeUrl "https://h/a" = "https://h/a" := by decide
example : Sink.normalizeUrl " https://h/a#frag " = "https://h/a" := by decide
example : Sink.normalizeUrl "https://h/a///b" = "https://h/a/b" := by decide
example : Sink.normalizeUrl "https://h/a//b" = "https://h/a//b" := by decide
example : Sink.normalizeUrl "https://h/x/index.html" = "https://h/x/" := by decide
example : Sink.normalizeUrl "not a url" = "not a url" := by decide
example : Sink.normalizeUrl "https://h/f.pdf?x=1" = "https://h/f.pdf?x=1" := by decide
example : Sink.extFromUrl "https://h/f.PDF" = "pdf" := by decide
example : Sink.extFromUrl "https://h/f" = "bin" := by decide
example : Sink.extFromUrl "https://h/f.csv?dl=1" = "csv" := by decide
example : Sink.stableUniqUrls ["https://h/a", "https://h/a#z", "https://h/b"]
    = ["https://h/a", "https://h/b"] := by decide

/-! # Helper lemmas -/

theorem Sink.upd_same {α : Type} (f : Nat → Option α) (n : Nat) (v : Option α) :
    Sink.upd f n v n = v := by
  simp [Sink.upd]

theorem Sink.upd_other {α : Type} (f : Nat → Option α) (n : Nat) (v : Option α)
    (m : Nat) (h : ¬ m = n) : Sink.upd f n v m = f m := by
  simp [Sink.upd, h]

theorem Sink.artWrite_of_ne_nil {α : Type} {rows : List α}
    (h : rows.isEmpty = false) : Sink.artWrite rows = some rows := by
  simp [Sink.artWrite, h]

theorem Sink.any_isEmpty_false {α : Type} {l : List α} {p : α → Bool}
    (h : l.any p = true) : l.isEmpty = false := by
  cases l
  · simp at h
  · rfl

theorem Sink.append_singleton_isEmpty_false {α : Type} (l : List α) (a : α) :
    (l ++ [a]).isEmpty = false := by
  cases l <;> rfl

theorem Sink.probeMetaRows_mem (existing : List Sink.DiffUrlRow) (url : String) :
    ((Sink.probeMetaRows existing url).any (fun r => r.url = url)) = true := by
  simp only [Sink.probeMetaRows]
  split
  · assumption
  · simp

theorem Sink.probeMetaRows_ne_nil (existing : List Sink.DiffUrlRow) (url : String) :
    (Sink.probeMetaRows existing url).isEmpty = false := by
  simp only [Sink.probeMetaRows]
  split
  · exact Sink.any_isEmpty_false (by assumption)
  · exact Sink.append_singleton_isEmpty_false _ _

theorem Sink.probeDlRows_mem (existing : List Sink.DlRow) (url : String)
    (ctxExt ctxSp : Option String) :
    ((Sink.probeDlRows existing url ctxExt ctxSp).any (fun r => r.url = url)) = true := by
  simp only [Sink.probeDlRows]
  split
  · assumption
  · simp

theorem Sink.probeDlRows_ne_nil (existing : List Sink.DlRow) (url : String)
    (ctxExt ctxSp : Option String) :
    (Sink.probeDlRows existing url ctxExt ctxSp).isEmpty = false := by
  simp only [Sink.probeDlRows]
  split
  · exact Sink.any_isEmpty_false (by assumption)
  · exact Sink.append_singleton_isEmpty_false _ _

theorem Sink.upd_upd_same {α : Type} (f : Nat → Option α) (n : Nat)
    (v w : Option α) : Sink.upd (Sink.upd f n v) n w = Sink.upd f n w := by
  funext m
  by_cases h : m = n <;> simp [Sink.upd, h]

theorem Sink.upd_read_below {α : Type} (f : Nat → Option α) (n : Nat)
    (v : Option α) : Sink.upd f (n + 1) v n = f n := by
  simp [Sink.upd, Nat.ne_of_lt (Nat.lt_succ_self n)]

theorem Sink.setLevel_mem_any (ls : List (Nat × Sink.LevelRec)) (n : Nat)
    (r : Sink.LevelRec) :
    ((Sink.setLevel ls n r).any (fun p => p.1 = n)) = true := by
  unfold Sink.setLevel
  by_cases h : ls.any (fun p => p.1 = n) = true
  · rw [if_pos h]
    rcases List.any_eq_true.mp h with ⟨p, hp, hpn⟩
    refine List.any_eq_true.mpr ⟨(n, r), ?_, by simp⟩
    have := List.mem_map_of_mem (fun p => if p.1 = n then (n, r) else p) hp
    simpa [of_decide_eq_true hpn] using this
  · rw [if_neg h]
    exact List.any_eq_true.mpr ⟨(n, r), by simp, by simp⟩

theorem Sink.setLevel_setLevel_same (ls : List (Nat × Sink.LevelRec)) (n : Nat)
    (r : Sink.LevelRec) :
    Sink.setLevel (Sink.setLevel ls n r) n r = Sink.setLevel ls n r := by
  by_cases h : ls.any (fun p => p.1 = n) = true
  · have hset : Sink.setLevel ls n r = ls.map (fun p => if p.1 = n then (n, r) else p) := by
      unfold Sink.setLevel
      rw [if_pos h]
    have hany2 : ((ls.map (fun p => if p.1 = n then (n, r) else p)).any
        (fun p => p.1 = n)) = true := by
      rw [← hset]
      exact Sink.setLevel_mem_any ls n r
    rw [hset]
    unfold Sink.setLevel
    rw [if_pos hany2, List.map_map]
    apply List.map_congr_left
    intro p _
    by_cases hp : p.1 = n <;> simp [Function.comp, hp]
  · have hset : Sink.setLevel ls n r = ls ++ [(n, r)] := by
      unfold Sink.setLevel
      rw [if_neg h]
    have hany2 : ((ls ++ [(n, r)]).any (fun p => p.1 = n)) = true := by
      rw [← hset]
      exact Sink.setLevel_mem_any ls n r
    rw [hset]
    unfold Sink.setLevel
    rw [if_pos hany2, List.map_append]
    have h1 : ls.map (fun p => if p.1 = n then (n, r) else p) = ls := by
      conv_rhs => rw [← List.map_id ls]
      apply List.map_congr_left
      intro p hp
      have hne : ¬ p.1 = n := by
        intro hq
        exact h (List.any_eq_true.mpr ⟨p, hp, by simp [hq]⟩)
      simp [hne]
    rw [h1]
    simp

theorem Sink.ite_upd_idem {α : Type} (c : Prop) [Decidable c]
    (B : Nat → Option α) (k : Nat) (v : Option α) :
    (if c then (if c then B else Sink.upd B k v)
     else Sink.upd (if c then B else Sink.upd B k v) k v)
    = if c then B else Sink.upd B k v := by
  by_cases h : c <;> simp [h, Sink.upd_upd_same]

theorem Sink.marker_set_idem (level : Nat) (runId : String)
    (m : Nat → String → Bool) :
    (fun n r => if n = level ∧ r = runId then true
      else (if n = level ∧ r = runId then true else m n r))
    = fun n r => if n = level ∧ r = runId then true else m n r := by
  funext n r
  by_cases h : n = level ∧ r = runId <;> simp [h]

theorem Sink.artWrite_getD {α : Type} (l : List α) :
    (Sink.artWrite l).getD [] = l := by
  unfold Sink.artWrite
  by_cases h : l.isEmpty = true
  · rw [if_pos h, Option.getD_none, List.isEmpty_iff.mp h]
  · rw [if_neg h, Option.getD_some]

theorem Sink.lookup_map_set {α : Type} (xs : List (String × α)) (k : String) (v : α)
    (h : xs.any (fun p => p.1 = k) = true) :
    List.find? (fun p => p.1 = k)
      (xs.map (fun p => if p.1 = k then (k, v) else p)) = some (k, v) := by
  induction xs with
  | nil => simp at h
  | cons a t ih =>
    by_cases ha : a.1 = k
    · simp [ha]
    · have ht : t.any (fun p => p.1 = k) = true := by
        rcases List.any_eq_true.mp h with ⟨p, hp, hpk⟩
        rcases List.mem_cons.mp hp with rfl | hp'
        · exact absurd (of_decide_eq_true hpk) ha
        · exact List.any_eq_true.mpr ⟨p, hp', hpk⟩
      simpa [ha] using ih ht

theorem Sink.lookupAssoc_setAssoc_same {α : Type} (xs : List (String × α))
    (k : String) (v : α) :
    Sink.lookupAssoc (Sink.setAssoc xs k v) k = some v := by
  unfold Sink.setAssoc Sink.lookupAssoc
  by_cases h : xs.any (fun p => p.1 = k) = true
  · rw [if_pos h, Sink.lookup_map_set xs k v h]
    rfl
  · rw [if_neg h]
    have hfind : List.find? (fun p => decide (p.1 = k)) xs = none := by
      rw [List.find?_eq_none]
      intro p hp hkp
      exact h (List.any_eq_true.mpr ⟨p, hp, hkp⟩)
    rw [List.find?_append, hfind]
    simp

theorem Sink.appendToLevelManifest_any (m : List Sink.ManifestEntry)
    (e : Sink.ManifestEntry) :
    ((Sink.appendToLevelManifest m e).any
      (fun x => x.sha256 = e.sha256 ∧ x.saved_to = e.saved_to)) = true := by
  unfold Sink.appendToLevelManifest
  by_cases h : m.any (fun x => x.sha256 = e.sha256 ∧ x.saved_to = e.saved_to) = true
  · rw [if_pos h]
    exact h
  · rw [if_neg h]
    exact List.any_eq_true.mpr ⟨e, by simp, by simp⟩

/-! # Claim theorems -/

/-! ## C8 — slash collapsing in `normalizeUrl` -/

/-- C8: the claim says `normalize` collapses every run of two or more
consecutive `/` in the path, in particular that a path containing exactly
`//` comes out with a single `/`.  The code's regex `/\/\/{2,}/g` matches
only runs of three or more slashes, so `normalizeUrl` leaves a double
slash intact while collapsing longer runs: the claim fails at
`https://h/a//b`. -/
theorem normalizeUrl_preserves_exact_double_slash :
    Sink.normalizeUrl "https://h/a//b" = "https://h/a//b" ∧
    Sink.normalizeUrl "https://h/a///b" = "https://h/a/b" ∧
    Sink.normalizeUrl "https://h/a////b" = "https://h/a/b" ∧
    ¬ Sink.normalizeUrl "https://h/a//b" = "https://h/a/b" := by
  refine ⟨by decide, by decide, by decide, by decide⟩

/-! ## C5 — `writeJson` is a direct write, not temp+rename -/

/-- C5: the claim says every persistent JSON write goes through a
temporary file in the same directory followed by a rename.  The live
`writeJson` of `src/src/lib/fsx.js` ensures the parent directory and then
writes the serialized document directly to the target path in a single
`fs.writeFileSync`; its trace contains no rename and does write the
target directly, so it is not an atomic temp+rename write.  The
repository's atomic variant (`atomicWriteJsonOps`) does satisfy the
claimed shape, witnessing that the predicate is the intended one. -/
theorem writeJson_is_direct_not_atomic :
    Sink.writeJsonOps "BFS_crawl/_meta/default/state.json" "[]" =
      [Sink.FsOp.mkdirRec "BFS_crawl/_meta/default",
       Sink.FsOp.writeFileDirect "BFS_crawl/_meta/default/state.json" "[]"] ∧
    ¬ Sink.isAtomicJsonWriteTrace
        (Sink.writeJsonOps "BFS_crawl/_meta/default/state.json" "[]")
        "BFS_crawl/_meta/default/state.json" "[]" ∧
    Sink.isAtomicJsonWriteTrace
      (Sink.atomicWriteJsonOps "BFS_crawl/_meta/default/state.json" "[]"
        "BFS_crawl/_meta/default/.state.json.tmp-1-2-3")
      "BFS_crawl/_meta/default/state.json" "[]" := by
  refine ⟨by decide, ?_, ?_⟩
  · rintro ⟨tmp, -, -, hr, -⟩
    simp [Sink.writeJsonOps] at hr
  · refine ⟨"BFS_crawl/_meta/default/.state.json.tmp-1-2-3", by decide, by
      simp [Sink.atomicWriteJsonOps], by simp [Sink.atomicWriteJsonOps], ?_⟩
    intro d hd
    simp [Sink.atomicWriteJsonOps] at hd

/-! ## C6 — mutating handlers that bypass the mutation mutex -/

/-- C6: the claim says every handler that read-modify-writes persistent
shared state executes inside the process-wide mutation mutex.  Read off
the sources: `POST /dedupe/level` mutates `state.json` and artifacts with
no `withLock` call at all, `POST /probe/meta` mutates the probe index and
diff artifacts with no `withLock` call, and one upload-router variant
wraps its body in `withLock` without importing it (so the call throws
instead of serializing).  Hence not every mutating handler acquires the
mutex. -/
theorem mutating_handlers_bypass_mutex :
    Sink.dedupeLevelHandler.mutatesPersistentState = true ∧
    Sink.acquiresMutationMutex Sink.dedupeLevelHandler = false ∧
    Sink.probeMetaHandler.mutatesPersistentState = true ∧
    Sink.acquiresMutationMutex Sink.probeMetaHandler = false ∧
    Sink.uploadFileNoImportHandler.wrapsBodyInWithLock = true ∧
    Sink.acquiresMutationMutex Sink.uploadFileNoImportHandler = false ∧
    ¬ (∀ h ∈ Sink.sinkMutatingHandlers,
        h.mutatesPersistentState = true → Sink.acquiresMutationMutex h = true) := by
  refine ⟨rfl, rfl, rfl, rfl, rfl, rfl, ?_⟩
  intro hall
  have := hall Sink.dedupeLevelHandler (by simp [Sink.sinkMutatingHandlers]) rfl
  simp [Sink.acquiresMutationMutex, Sink.dedupeLevelHandler] at this

/-! ## C7 — `POST /runs/chunk/files` always fails -/

/-- C7: the claim says the operation succeeds for every valid level on a
domain whose `files-level-L.json` exists.  `reconcile_files.js`
destructures `writeFilesForLevel` and `writeChunkedFiles` from the
artifacts module, which exports neither, so `reconcileFilesLevel` throws
a `TypeError` after computing the remaining set and every such request
surfaces as a 500 `{ok:false}`. -/
theorem chunk_files_route_always_500 :
    (∀ (fileArts : Nat → Option (List Sink.FileRow))
       (idx : List (String × Sink.HashRec)) (level : Nat),
       1 ≤ level → (fileArts level).isSome = true →
       Sink.chunkFilesRoute fileArts idx level = ⟨false, 500⟩ ∧
       (Sink.reconcileFilesLevel fileArts idx level).isOk = false) ∧
    ("writeFilesForLevel" ∈ Sink.reconcileFilesImports ∧
     ¬ "writeFilesForLevel" ∈ Sink.artifactsModuleExports) := by
  constructor
  · intro fileArts idx level hl hs
    have hno : (fileArts level).isNone = false := by
      cases h : fileArts level with
      | none => rw [h] at hs; simp at hs
      | some v => simp
    have hrec : Sink.reconcileFilesLevel fileArts idx level =
        Except.error "TypeError: writeFilesForLevel is not a function" := by
      unfold Sink.reconcileFilesLevel
      rw [if_neg (by decide)]
    constructor
    · unfold Sink.chunkFilesRoute
      rw [if_neg (by omega), if_neg (by simp [hno]), hrec]
    · rw [hrec]; rfl
  · exact ⟨by decide, by decide⟩

/-- Witness for C7 at a concrete state: level 1 with an existing (empty)
`files-level-1.json` artifact. -/
theorem chunk_files_route_always_500_witness :
    Sink.chunkFilesRoute (fun _ => some []) [] 1 = ⟨false, 500⟩ :=
  (chunk_files_route_always_500.1 (fun _ => some []) [] 1 (by decide) (by decide)).1

/-! ## C10 — the first probe of a URL reports changed -/

/-- C10: for a URL with no prior entry in the probe index, `sigChanged`
compares the missing prior signature against the freshly picked one and
reports a change, so the first `POST /probe/meta` for that URL returns
`changed = true` and, when a level is supplied, already appends the URL
as modified to `files-meta-diff-level-L.json` and merges it into the
`files-diff-level-L.json` download queue. -/
theorem first_probe_reports_changed
    (now : Nat) (st : Sink.ProbeState) (req : Sink.ProbeReq) (l : Nat)
    (hlvl : req.level = some l) (hl : 1 ≤ l)
    (hurl : req.url.isEmpty = false)
    (hfirst : Sink.lookupAssoc st.probeIdx req.url = none) :
    (Sink.probeMeta now st req).2.changed = true ∧
    (Sink.probeMeta now st req).2.ok = true ∧
    (∃ rows, ((Sink.probeMeta now st req).1.metaDiff l) = some rows ∧
      rows.any (fun r => r.url = req.url) = true) ∧
    (∃ rows, ((Sink.probeMeta now st req).1.filesDiff l) = some rows ∧
      rows.any (fun r => r.url = req.url) = true) := by
  have hchanged :
      Sink.sigChangedFromPrev
        ((Sink.lookupAssoc st.probeIdx req.url).map (·.signature))
        (Sink.pickSignature req.head req.get_range) = true := by
    rw [hfirst]; rfl
  unfold Sink.probeMeta
  rw [if_neg (by simp [hurl])]
  rw [if_neg (by simp [hlvl]; omega)]
  simp only [hlvl, hfirst]
  have hc : Sink.sigChangedFromPrev
      (Option.map (fun x => x.signature) (none : Option Sink.ProbeRec))
      (Sink.pickSignature req.head req.get_range) = true := rfl
  rw [if_pos hc]
  refine ⟨rfl, rfl, ?_, ?_⟩
  · show ∃ rows, Sink.upd st.metaDiff l
      (Sink.artWrite (Sink.probeMetaRows ((st.metaDiff l).getD []) req.url)) l
        = some rows ∧ _
    simp only [Sink.upd_same,
      Sink.artWrite_of_ne_nil (Sink.probeMetaRows_ne_nil ((st.metaDiff l).getD []) req.url)]
    exact ⟨_, rfl, Sink.probeMetaRows_mem _ _⟩
  · show ∃ rows, Sink.upd st.filesDiff l
      (Sink.artWrite (Sink.probeDlRows ((st.filesDiff l).getD []) req.url _ _)) l
        = some rows ∧ _
    simp only [Sink.upd_same,
      Sink.artWrite_of_ne_nil (Sink.probeDlRows_ne_nil _ _ _ _)]
    exact ⟨_, rfl, Sink.probeDlRows_mem _ _ _ _⟩

/-- Witness for C10: the very first probe of `https://h/f.pdf` (empty
probe index, no artifacts) with a useful HEAD signature reports
`changed = true` and queues the URL in both diff artifacts. -/
theorem first_probe_reports_changed_witness :
    (Sink.probeMeta 0
      (⟨[], fun _ => none, fun _ => none, fun _ => none⟩ : Sink.ProbeState)
      (⟨"https://h/f.pdf", some 1, some ⟨some "e1", none, none, none⟩, none⟩ :
        Sink.ProbeReq)).2.changed = true ∧
    (Sink.probeMeta 0
      (⟨[], fun _ => none, fun _ => none, fun _ => none⟩ : Sink.ProbeState)
      (⟨"https://h/f.pdf", some 1, some ⟨some "e1", none, none, none⟩, none⟩ :
        Sink.ProbeReq)).2.ok = true ∧
    (∃ rows, ((Sink.probeMeta 0
      (⟨[], fun _ => none, fun _ => none, fun _ => none⟩ : Sink.ProbeState)
      (⟨"https://h/f.pdf", some 1, some ⟨some "e1", none, none, none⟩, none⟩ :
        Sink.ProbeReq)).1.metaDiff 1) = some rows ∧
      rows.any (fun r => r.url = "https://h/f.pdf") = true) ∧
    (∃ rows, ((Sink.probeMeta 0
      (⟨[], fun _ => none, fun _ => none, fun _ => none⟩ : Sink.ProbeState)
      (⟨"https://h/f.pdf", some 1, some ⟨some "e1", none, none, none⟩, none⟩ :
        Sink.ProbeReq)).1.filesDiff 1) = some rows ∧
      rows.any (fun r => r.url = "https://h/f.pdf") = true) :=
  first_probe_reports_changed 0 _ _ 1 rfl (by decide) (by decide) (by decide)

/-! ## C3 — finalize is idempotent; the watchdog skips done buckets -/

/-- C3: finalizing the same unchanged JSONL bucket twice yields exactly
the same persisted state and on-disk artifacts (and the same response) as
finalizing it once, and the auto-finalize watchdog never selects a bucket
whose `.done` marker file exists. -/
theorem finalize_idempotent_and_watchdog_skips_done :
    (∀ (st : Sink.DomainState) (bucket : List Sink.BucketRec)
       (level : Nat) (runId : String),
       Sink.finalizeDiscoveryRun
         (Sink.finalizeDiscoveryRun st bucket level runId).1 bucket level runId
         = Sink.finalizeDiscoveryRun st bucket level runId) ∧
    (∀ (idleMs : Nat) (bs : List Sink.RunBucketFile) (b : Sink.RunBucketFile),
       b ∈ Sink.autoFinalizeScan idleMs bs → b.hasDoneMarker = false) := by
  constructor
  · intro st bucket level runId
    unfold Sink.finalizeDiscoveryRun
    simp only [Sink.setLevel_setLevel_same, Sink.upd_upd_same, Sink.upd_read_below,
      Sink.marker_set_idem, Sink.ite_upd_idem]
  · intro idleMs bs b hb
    have := List.of_mem_filter hb
    unfold Sink.autoFinalizeWants at this
    cases h : b.hasDoneMarker
    · rfl
    · rw [h] at this
      simp at this

/-! ## C1 — frontier artifacts of /dedupe/level and finalize -/

/-- C1 counterexample: `POST /dedupe/level` defaults to update/patch
mode, which merges the previous artifact into the new one.  After a call
that discovers `b` at level 2 and a second call that marks `b` visited at
level 2, the handler's own merged level record rules `b` out of the
frontier (`nextFrontier` is empty), yet `urls-level-3.json` still
contains `b` — so the artifact is not "exactly" the claimed set
difference. -/
theorem dedupe_patch_keeps_stale_urls :
    Sink.dedupeState2.urlArts 3 = some ["https://h/b"] ∧
    Sink.dedupeState2.levels
      = Sink.setLevel Sink.dedupeState1.levels 2 Sink.dedupeMerged2 ∧
    Sink.nextFrontier Sink.dedupeState2.levels 2 Sink.dedupeMerged2 = [] ∧
    ¬ ((Sink.dedupeState2.urlArts 3).getD []
        = Sink.nextFrontier Sink.dedupeState2.levels 2 Sink.dedupeMerged2) := by
  refine ⟨by decide, ?_, by decide, by decide⟩
  show (Sink.dedupeLevel Sink.dedupeState1 Sink.dedupeCall2).1.levels = _
  decide

/-- C1 (amended): the next-level artifact equals exactly the merged
discovered pages minus (pages seen at stored levels < L ∪ this level's
merged visited set), and the file artifact exactly the merged candidates
not seen as files below L, **when** the `/dedupe/level` call requests a
full overwrite (`full: true`); every streaming finalize writes exactly
that frontier unconditionally; and the concrete scenario-1 outcome holds
as claimed even in default patch mode (no prior artifacts exist there).
In default patch mode in general, the artifact is the previous artifact
merged with the newly computed additions (see the counterexample). -/
theorem dedupe_full_and_finalize_write_exact_frontier :
    (∀ (st : Sink.DomainState) (req : Sink.DedupeReq),
      1 ≤ req.level → req.update = true → req.full = true →
        (((Sink.dedupeLevel st req).1.urlArts (req.level + 1)
            = Sink.artWrite (Sink.nextFrontier
                (Sink.setLevel st.levels req.level (Sink.dedupeMergedLevel st req))
                req.level (Sink.dedupeMergedLevel st req)))
         ∧ ((Sink.dedupeLevel st req).1.fileArts req.level
             = Sink.artWrite (List.map Sink.fileRowForArtifact (Sink.newFilesOut
                 (Sink.setLevel st.levels req.level (Sink.dedupeMergedLevel st req))
                 req.level (Sink.dedupeMergedLevel st req))))
         ∧ (∀ u, u ∈ ((Sink.dedupeLevel st req).1.urlArts (req.level + 1)).getD [] ↔
             (u ∈ (Sink.dedupeMergedLevel st req).pages ∧
              ¬ (u ∈ (Sink.computeSeenUpTo
                    (Sink.setLevel st.levels req.level (Sink.dedupeMergedLevel st req))
                    (req.level - 1)).1 ∨
                 u ∈ (Sink.dedupeMergedLevel st req).visited)))))
    ∧ (∀ (st : Sink.DomainState) (bucket : List Sink.BucketRec)
         (level : Nat) (runId : String),
        ((Sink.finalizeDiscoveryRun st bucket level runId).1.urlArts (level + 1)
           = Sink.artWrite (Sink.nextFrontier
               (Sink.setLevel st.levels level (Sink.finalizeMergedLevel bucket)) level
               (Sink.finalizeMergedLevel bucket)))
        ∧ ((Sink.finalizeDiscoveryRun st bucket level runId).1.fileArts level
            = Sink.artWrite (List.map Sink.fileRowForArtifact (Sink.newFilesOut
                (Sink.setLevel st.levels level (Sink.finalizeMergedLevel bucket)) level
                (Sink.finalizeMergedLevel bucket)))))
    ∧ (Sink.scenarioState2.urlArts 3 = some ["https://h/b"]
       ∧ Sink.scenarioState2.fileArts 2
           = some [⟨"https://h/f.pdf", "pdf", some "https://h/a"⟩]) := by
  refine ⟨?_, ?_, by decide, by decide⟩
  · intro st req hl hupd hfull
    unfold Sink.dedupeLevel
    rw [if_neg (by omega)]
    rw [if_neg (by simp [hupd])]
    simp only [hfull]
    refine ⟨?_, ?_, ?_⟩
    · show Sink.upd _ (req.level + 1) _ (req.level + 1) = _
      rw [Sink.upd_same]
      simp
    · show Sink.upd _ req.level _ req.level = _
      rw [Sink.upd_same]
      simp
    · intro u
      show u ∈ (Sink.upd _ (req.level + 1) _ (req.level + 1)).getD [] ↔ _
      rw [Sink.upd_same]
      simp only [Sink.artWrite_getD]
      show u ∈ (if ¬ True then _ else Sink.nextFrontier _ req.level _) ↔ _
      simp only [not_true, if_false]
      unfold Sink.nextFrontier
      simp [List.mem_filter]
  · intro st bucket level runId
    constructor
    · show Sink.upd _ (level + 1) _ (level + 1) = _
      rw [Sink.upd_same]
    · show Sink.upd _ level _ level = _
      rw [Sink.upd_same]

/-- Witness for C1's amended theorem: scenario 1 with `full: true` —
the level-2 artifact equality at a concrete state. -/
theorem dedupe_full_write_exact_frontier_witness :
    (Sink.dedupeLevel Sink.scenarioState1 Sink.scenarioLevel2FullReq).1.urlArts 3
      = Sink.artWrite (Sink.nextFrontier
          (Sink.setLevel Sink.scenarioState1.levels 2
            (Sink.dedupeMergedLevel Sink.scenarioState1 Sink.scenarioLevel2FullReq))
          2 (Sink.dedupeMergedLevel Sink.scenarioState1 Sink.scenarioLevel2FullReq)) :=
  (dedupe_full_and_finalize_write_exact_frontier.1
    Sink.scenarioState1 Sink.scenarioLevel2FullReq (by decide) rfl rfl).1

/-! ## C2 — duplicate-content uploads -/

/-- Normalizing an optional source page with `|| null` does not change
its manifest/observation key component. -/
theorem Sink.normSp_getD (o : Option String) :
    (if Sink.optTruthy o then o else none).getD "" = o.getD "" := by
  cases o with
  | none => rfl
  | some s =>
    by_cases h : s.isEmpty = true
    · have hs : s = "" := (String.isEmpty_iff s).mp h
      subst hs
      decide
    · simp [Sink.optTruthy, h]

/-- Core of the duplicate-upload branch: looking up the sha after
`setAssoc` returns the updated record; its sources grew by exactly the
new observation key unless that key was present; the manifest gained the
`{sha256, saved_to}` entry. -/
theorem Sink.upload_dup_core (idx : List (String × Sink.HashRec))
    (mans : List Sink.ManifestEntry) (sha : String) (ex2 : Sink.HashRec)
    (url : String) (sp : Option String) (lvl now : Nat) :
    ∃ ex', Sink.lookupAssoc
        (Sink.setAssoc idx sha (Sink.addSourceObservation ex2 ⟨url, sp, lvl, now⟩)) sha
        = some ex'
      ∧ (((ex2.sources.map Sink.obsKey).contains (url, sp.getD "", lvl) = true →
           ex'.sources = ex2.sources)
         ∧ (¬ (ex2.sources.map Sink.obsKey).contains (url, sp.getD "", lvl) = true →
             ∃ o, ex'.sources = ex2.sources ++ [o]
               ∧ Sink.obsKey o = (url, sp.getD "", lvl)))
      ∧ (Sink.appendToLevelManifest mans
           ⟨sha, (Sink.addSourceObservation ex2 ⟨url, sp, lvl, now⟩).saved_to.getD ""⟩).any
          (fun e => e.sha256 = sha ∧ e.saved_to = ex'.saved_to.getD "")
          = true := by
  refine ⟨Sink.addSourceObservation ex2 ⟨url, sp, lvl, now⟩,
    Sink.lookupAssoc_setAssoc_same _ _ _, ⟨?_, ?_⟩,
    Sink.appendToLevelManifest_any _ _⟩
  · intro hkey
    unfold Sink.addSourceObservation
    simp only [Sink.obsKey]
    rw [if_pos hkey]
  · intro hkey
    unfold Sink.addSourceObservation
    simp only [Sink.obsKey]
    rw [if_neg hkey]
    refine ⟨_, rfl, ?_⟩
    show (url, (if Sink.optTruthy sp then sp else none).getD "", lvl) = _
    rw [Sink.normSp_getD]

/-- A rename of `p`'s content to `target` only relocates existing
content: anything present afterwards was present before, possibly as the
content of `p`. -/
theorem Sink.disk_move_subset (d : String → Option String) (p target q v : String)
    (h : (if q = target then d p else if q = p then none else d q) = some v) :
    d q = some v ∨ d p = some v := by
  by_cases h1 : q = target
  · rw [if_pos h1] at h
    exact Or.inr h
  · rw [if_neg h1] at h
    by_cases h2 : q = p
    · rw [if_pos h2] at h
      cases h
    · rw [if_neg h2] at h
      exact Or.inl h

/-- C2: an upload whose content hash already has a registry record with
an existing on-disk file writes no new bytes (at most relocating the
existing file), appends a source observation for the
`(url, source_page_url, level)` triple unless already present, appends
`{sha256, saved_to}` to the level manifest, and answers
`{skipped: true, note: "duplicate_content_skipped"}`; concretely,
uploading the same bytes twice (levels 1 then 2, different URLs) leaves
one file on disk, two source observations, and `skipped = true` on the
second response. -/
theorem upload_duplicate_content_skips :
    (∀ (route : Sink.RouteFn) (now : Nat) (st : Sink.UploadState)
       (req : Sink.UploadReq) (ex : Sink.HashRec) (p : String),
      1 ≤ req.bfs_level → req.url.isEmpty = false → req.content.isEmpty = false →
      Sink.lookupAssoc st.idx (Sink.sha256 req.content) = some ex →
      ex.saved_to = some p → (st.disk p).isSome = true →
        (((Sink.uploadFile route now st req).2.ok = true
          ∧ (Sink.uploadFile route now st req).2.skipped = true
          ∧ (Sink.uploadFile route now st req).2.note = "duplicate_content_skipped")
         ∧ (∃ ex', Sink.lookupAssoc (Sink.uploadFile route now st req).1.idx
               (Sink.sha256 req.content) = some ex'
             ∧ (((ex.sources.map Sink.obsKey).contains
                   (req.url, req.source_page_url.getD "", req.bfs_level) = true →
                 ex'.sources = ex.sources)
                ∧ (¬ (ex.sources.map Sink.obsKey).contains
                     (req.url, req.source_page_url.getD "", req.bfs_level) = true →
                   ∃ o, ex'.sources = ex.sources ++ [o]
                     ∧ Sink.obsKey o
                         = (req.url, req.source_page_url.getD "", req.bfs_level)))
             ∧ ((Sink.uploadFile route now st req).1.manifests req.bfs_level).any
                 (fun e => e.sha256 = Sink.sha256 req.content
                   ∧ e.saved_to = ex'.saved_to.getD "") = true)
         ∧ (∀ q v, (Sink.uploadFile route now st req).1.disk q = some v →
             st.disk q = some v ∨ st.disk p = some v)))
    ∧ (Sink.uploadResp2.ok = true ∧ Sink.uploadResp2.skipped = true
       ∧ Sink.uploadResp2.note = "duplicate_content_skipped"
       ∧ Sink.uploadState2.disk "downloads/d/bucket/f1.csv" = some "BYTESX"
       ∧ Sink.uploadState2.disk "downloads/d/bucket/f2.csv" = none
       ∧ (∀ q, ¬ q = "downloads/d/bucket/f1.csv" → Sink.uploadState2.disk q = none)
       ∧ (Sink.lookupAssoc Sink.uploadState2.idx "BYTESX").map
           (fun r => r.sources.length) = some 2) := by
  constructor
  · intro route now st req ex p hl hu hc hlk hsv hdisk
    unfold Sink.uploadFile
    rw [if_neg (by omega)]
    rw [if_neg (by simp [hu, hc])]
    simp only [hlk, hsv]
    rw [if_pos hdisk]
    by_cases hrel :
        (Sink.optTruthy (route req.url req.ext req.source_page_url req.filename).electorateFolder = true
          ∧ ¬ Sink.optTruthy ex.electorateFolder = true)
    · simp only [if_pos hrel, if_true]
      refine ⟨⟨trivial, trivial, trivial⟩, ?_, ?_⟩
      · exact Sink.upload_dup_core _ _ _ _ _ _ _ _
      · intro q v h
        exact Sink.disk_move_subset st.disk p _ q v h
    · simp only [if_neg hrel, if_true]
      refine ⟨⟨trivial, trivial, trivial⟩, ?_, ?_⟩
      · exact Sink.upload_dup_core _ _ _ _ _ _ _ _
      · intro q v h
        exact Or.inl h
  · refine ⟨by decide, by decide, by decide, by decide, by decide, ?_, by decide⟩
    intro q hq
    have hfun : Sink.uploadState2.disk = Sink.uploadState1.disk := rfl
    rw [hfun]
    show (if q = "downloads/d/bucket/f1.csv" then some "BYTESX" else none) = none
    rw [if_neg hq]

/-- Witness for C2's duplicate-upload theorem at a concrete state: the
registry already holds the content hash with its file on disk, and the
upload answers skipped/duplicate. -/
theorem upload_duplicate_content_skips_witness :
    (Sink.uploadFile Sink.demoRoute 7 Sink.dupWitnessState Sink.dupWitnessReq).2.ok = true
    ∧ (Sink.uploadFile Sink.demoRoute 7 Sink.dupWitnessState Sink.dupWitnessReq).2.skipped = true
    ∧ (Sink.uploadFile Sink.demoRoute 7 Sink.dupWitnessState Sink.dupWitnessReq).2.note
        = "duplicate_content_skipped" :=
  (upload_duplicate_content_skips.1 Sink.demoRoute 7 Sink.dupWitnessState
    Sink.dupWitnessReq Sink.dupWitnessRec "downloads/d/c.csv"
    (by decide) (by decide) (by decide) (by decide) (by decide) (by decide)).1

/-! ## C4 helpers — singleton association maps and the duplicate-suffix scan -/

theorem Sink.setAssoc_singleton_same {α : Type} (k : String) (v w : α) :
    Sink.setAssoc [(k, v)] k w = [(k, w)] := by
  simp [Sink.setAssoc]

theorem Sink.lookupAssoc_singleton_same {α : Type} (k : String) (v : α) :
    Sink.lookupAssoc [(k, v)] k = some v := by
  simp [Sink.lookupAssoc]

theorem Sink.lookupAssoc_singleton_ne {α : Type} (k q : String) (v : α)
    (h : ¬ q = k) :
    Sink.lookupAssoc [(k, v)] q = none := by
  simp [Sink.lookupAssoc]
  exact fun hc => h hc.symm

theorem Sink.ensureUniqueTarget_first (d : String → Option String) (t : String)
    (h : d (Sink.insertDupSuffix t 1) = none) :
    Sink.ensureUniqueTarget d t = some (Sink.insertDupSuffix t 1) := by
  unfold Sink.ensureUniqueTarget
  rw [show (999 : Nat) = 998 + 1 from rfl, List.range'_succ]
  rw [List.find?_cons_of_pos]
  · rfl
  · simp [h]

theorem Sink.ensureUniqueTarget_all_taken (d : String → Option String) (t : String)
    (h : ∀ i, 1 ≤ i → i ≤ 999 → (d (Sink.insertDupSuffix t i)).isSome = true) :
    Sink.ensureUniqueTarget d t = none := by
  unfold Sink.ensureUniqueTarget
  have hfind : (List.range' 1 999).find?
      (fun i => (d (Sink.insertDupSuffix t i)).isNone) = none := by
    rw [List.find?_eq_none]
    intro x hx
    rw [List.mem_range'_1] at hx
    have hs := h x hx.1 (by omega)
    simp [Option.isNone_iff_eq_none]
    intro hcontra
    rw [hcontra] at hs
    simp at hs
  rw [hfind]
  rfl

/-- Core of the amended C4 statement: on a one-record registry whose
`saved_to` names the record's actual file, if the best source routes to a
different target that is occupied by content whose hash is not in the
registry and the first `__dup1` slot is free, `--apply` moves the occupant
to the `__dup1` slot, moves the record's file to the canonical target,
clears the old path and repoints `saved_to`. -/
theorem Sink.resort_displace_core
    (route : Sink.RouteFn) (now : Nat) (sha : String) (r0 : Sink.HashRec)
    (d : String → Option String) (m : Nat → List Sink.ManifestEntry)
    (oldRel desired c0 bytesY : String) (src : Sink.SourceObs)
    (h1 : r0.saved_to = some oldRel)
    (h2 : d oldRel = some c0)
    (h3 : Sink.pickBestSource r0.sources = some src)
    (h4 : (route src.url (if r0.ext.isEmpty then none else some r0.ext)
        src.source_page_url (some (Sink.pathBasename oldRel))).outPath = desired)
    (h5 : ¬ desired = oldRel)
    (h6 : d desired = some bytesY)
    (h7 : ¬ Sink.sha256 bytesY = sha)
    (h8 : d (Sink.insertDupSuffix desired 1) = none)
    (h9 : ¬ Sink.insertDupSuffix desired 1 = desired)
    (h10 : ¬ Sink.insertDupSuffix desired 1 = oldRel) :
    (Sink.resortDownloadsApply route now ⟨[(sha, r0)], d, m⟩).disk
        (Sink.insertDupSuffix desired 1) = some bytesY
    ∧ (Sink.resortDownloadsApply route now ⟨[(sha, r0)], d, m⟩).disk desired = some c0
    ∧ (Sink.resortDownloadsApply route now ⟨[(sha, r0)], d, m⟩).disk oldRel = none
    ∧ ∃ r, Sink.lookupAssoc
          (Sink.resortDownloadsApply route now ⟨[(sha, r0)], d, m⟩).idx sha
          = some r ∧ r.saved_to = some desired := by
  have hstep : Sink.resortDownloadsApply route now ⟨[(sha, r0)], d, m⟩
      = Sink.resortApplyStep route now ⟨[(sha, r0)], d, m⟩ sha := rfl
  have hlu : Sink.lookupAssoc [(sha, r0)] sha = some r0 := by
    simp [Sink.lookupAssoc]
  rw [hstep]
  unfold Sink.resortApplyStep
  simp only [hlu, h1, h3, h4]
  rw [if_neg (show ¬((d oldRel).isNone = true) from by rw [h2]; simp)]
  rw [if_neg h5]
  rw [if_neg (show ¬((d desired).isNone = true) from by rw [h6]; simp)]
  simp only [h6, Option.getD_some]
  rw [if_neg h7]
  simp only [Sink.setAssoc_singleton_same]
  rw [Sink.lookupAssoc_singleton_ne sha (Sink.sha256 bytesY) _ h7]
  rw [if_neg (show ¬((none : Option Sink.HashRec).isSome = true) from by simp)]
  rw [Sink.ensureUniqueTarget_first d desired h8]
  refine ⟨?_, ?_, ?_, ?_⟩
  · show (if Sink.insertDupSuffix desired 1 = desired then _ else _) = some bytesY
    rw [if_neg h9, if_neg h10, if_pos rfl]
  · show (if desired = desired then _ else _) = some c0
    rw [if_pos rfl, if_neg (fun hc => h10 hc.symm), if_neg (fun hc => h5 hc.symm)]
    exact h2
  · show (if oldRel = desired then _ else _) = none
    rw [if_neg (fun hc => h5 hc.symm), if_pos rfl]
  · simp only [Sink.setAssoc_singleton_same]
    exact ⟨_, Sink.lookupAssoc_singleton_same sha _, rfl⟩

/-! ## C4 — resort displaces a non-canonical occupant -/

/-- C4 (counterexample): with the claim's own premise `saved_to =
downloads/d/bucket/file.csv`, phase A of `resort-downloads --apply`
locates the record's bytes through `saved_to`, so it treats the bucket
path — which holds `bytes_Y` — as the record's file; its best source
routes right back to that same path, so the walk changes nothing on
disk: no `file__dup1.csv` appears, `bytes_Y` stays at the bucket path,
and the record's real bytes stay at `downloads/d/other/file.csv`,
contradicting the claimed final layout. -/
theorem resort_saved_to_premise_blocks_displacement :
    (Sink.resortDownloadsApply Sink.demoRoute 9 Sink.resortScenarioInit).disk
        "downloads/d/bucket/file__dup1.csv" = none
    ∧ ¬ (Sink.resortDownloadsApply Sink.demoRoute 9 Sink.resortScenarioInit).disk
        "downloads/d/bucket/file__dup1.csv" = some "Y"
    ∧ (Sink.resortDownloadsApply Sink.demoRoute 9 Sink.resortScenarioInit).disk
        "downloads/d/bucket/file.csv" = some "Y"
    ∧ (Sink.resortDownloadsApply Sink.demoRoute 9 Sink.resortScenarioInit).disk
        "downloads/d/other/file.csv" = some "S" := by decide

/-- C4 (amended): when the registry record's `saved_to` names where its
bytes actually live (`downloads/d/other/file.csv`) and its best source
routes to a canonical target occupied by unindexed bytes, `resort-downloads
--apply` renames the occupant into the first free `__dupN` slot (the scan
is capped at 999: with every slot taken it yields no target, second
conjunct) and moves the record's file into the canonical path, repointing
`saved_to`; concretely, unindexed `bytes_Y` ends at
`downloads/d/bucket/file__dup1.csv` and the record's bytes at
`downloads/d/bucket/file.csv`. -/
theorem resort_displaces_unindexed_occupant :
    (∀ (route : Sink.RouteFn) (now : Nat) (sha : String) (r0 : Sink.HashRec)
       (d : String → Option String) (m : Nat → List Sink.ManifestEntry)
       (oldRel desired c0 bytesY : String) (src : Sink.SourceObs),
       r0.saved_to = some oldRel →
       d oldRel = some c0 →
       Sink.pickBestSource r0.sources = some src →
       (route src.url (if r0.ext.isEmpty then none else some r0.ext)
           src.source_page_url (some (Sink.pathBasename oldRel))).outPath = desired →
       ¬ desired = oldRel →
       d desired = some bytesY →
       ¬ Sink.sha256 bytesY = sha →
       d (Sink.insertDupSuffix desired 1) = none →
       ¬ Sink.insertDupSuffix desired 1 = desired →
       ¬ Sink.insertDupSuffix desired 1 = oldRel →
       ((Sink.resortDownloadsApply route now ⟨[(sha, r0)], d, m⟩).disk
           (Sink.insertDupSuffix desired 1) = some bytesY
        ∧ (Sink.resortDownloadsApply route now ⟨[(sha, r0)], d, m⟩).disk desired
            = some c0
        ∧ (Sink.resortDownloadsApply route now ⟨[(sha, r0)], d, m⟩).disk oldRel
            = none
        ∧ ∃ r, Sink.lookupAssoc
              (Sink.resortDownloadsApply route now ⟨[(sha, r0)], d, m⟩).idx sha
              = some r ∧ r.saved_to = some desired))
    ∧ (∀ (d : String → Option String) (t : String),
        (∀ i, 1 ≤ i → i ≤ 999 → (d (Sink.insertDupSuffix t i)).isSome = true) →
        Sink.ensureUniqueTarget d t = none)
    ∧ ((Sink.resortDownloadsApply Sink.demoRoute 9 Sink.resortScenarioInit').disk
          "downloads/d/bucket/file__dup1.csv" = some "Y"
       ∧ (Sink.resortDownloadsApply Sink.demoRoute 9 Sink.resortScenarioInit').disk
          "downloads/d/bucket/file.csv" = some "S"
       ∧ (Sink.resortDownloadsApply Sink.demoRoute 9 Sink.resortScenarioInit').disk
          "downloads/d/other/file.csv" = none) := by
  refine ⟨?_, ?_, by decide⟩
  · intro route now sha r0 d m oldRel desired c0 bytesY src
      h1 h2 h3 h4 h5 h6 h7 h8 h9 h10
    exact Sink.resort_displace_core route now sha r0 d m oldRel desired c0 bytesY src
      h1 h2 h3 h4 h5 h6 h7 h8 h9 h10
  · exact Sink.ensureUniqueTarget_all_taken

/-- Witness for the amended C4 theorem: the general displacement clause
applied to the amended scenario, and the 999-cap clause applied to a disk
with every path occupied. -/
theorem resort_displaces_unindexed_occupant_witness :
    ((Sink.resortDownloadsApply Sink.demoRoute 9 Sink.resortScenarioInit').disk
        "downloads/d/bucket/file__dup1.csv" = some "Y"
     ∧ (Sink.resortDownloadsApply Sink.demoRoute 9 Sink.resortScenarioInit').disk
        "downloads/d/bucket/file.csv" = some "S"
     ∧ (Sink.resortDownloadsApply Sink.demoRoute 9 Sink.resortScenarioInit').disk
        "downloads/d/other/file.csv" = none)
    ∧ Sink.ensureUniqueTarget Sink.fullDisk "t.csv" = none := by
  have h := resort_displaces_unindexed_occupant.1 Sink.demoRoute 9 "S"
      Sink.resortRecS' Sink.resortScenarioInit'.disk Sink.resortScenarioInit'.manifests
      "downloads/d/other/file.csv" "downloads/d/bucket/file.csv" "S" "Y"
      ⟨"https://h/file.csv", none, 1, 5⟩ rfl (by decide) rfl (by decide) (by decide)
      (by decide) (by decide) (by decide) (by decide) (by decide)
  exact ⟨⟨h.1, h.2.1, h.2.2.1⟩,
    resort_displaces_unindexed_occupant.2.1 Sink.fullDisk "t.csv"
      (fun i hi hi2 => rfl)⟩

/-! ## C9 development — idempotence of normalizeUrl -/

namespace Sink

/-! ### takeWhile / dropWhile helpers -/

theorem takeWhile_append_all {α : Type} (p : α → Bool) (A B : List α)
    (h : ∀ c ∈ A, p c = true) :
    (A ++ B).takeWhile p = A ++ B.takeWhile p := by
  induction A with
  | nil => simp
  | cons a t ih =>
    have ha := h a (List.mem_cons_self a t)
    simp [List.takeWhile_cons, ha, ih (fun c hc => h c (List.mem_cons_of_mem a hc))]

theorem dropWhile_append_all {α : Type} (p : α → Bool) (A B : List α)
    (h : ∀ c ∈ A, p c = true) :
    (A ++ B).dropWhile p = B.dropWhile p := by
  induction A with
  | nil => simp
  | cons a t ih =>
    have ha := h a (List.mem_cons_self a t)
    simp [List.dropWhile_cons, ha, ih (fun c hc => h c (List.mem_cons_of_mem a hc))]

theorem takeWhile_all {α : Type} (p : α → Bool) (A : List α)
    (h : ∀ c ∈ A, p c = true) :
    A.takeWhile p = A := by
  have := takeWhile_append_all p A [] h
  simpa using this

theorem dropWhile_all {α : Type} (p : α → Bool) (A : List α)
    (h : ∀ c ∈ A, p c = true) :
    A.dropWhile p = [] := by
  have := dropWhile_append_all p A [] h
  simpa using this

theorem dropWhile_of_head_fails {α : Type} (p : α → Bool) (a : α) (t : List α)
    (h : p a = false) :
    (a :: t).dropWhile p = a :: t := by
  simp [List.dropWhile_cons, h]

end Sink

namespace Sink

theorem head_fails_dropWhile {α : Type} (p : α → Bool) :
    ∀ (l : List α) (a : α) (t : List α), l.dropWhile p = a :: t → p a = false := by
  intro l
  induction l with
  | nil => intro a t h; simp at h
  | cons x xs ih =>
    intro a t h
    by_cases hx : p x = true
    · rw [List.dropWhile_cons, if_pos hx] at h
      exact ih a t h
    · rw [List.dropWhile_cons, if_neg hx] at h
      cases h
      exact Bool.eq_false_iff.mpr hx

theorem suffix_getLast? {α : Type} (s m : List α) (h : s <:+ m) (hne : s ≠ []) :
    s.getLast? = m.getLast? := by
  obtain ⟨pre, rfl⟩ := h
  rw [List.getLast?_append_of_ne_nil pre hne]

theorem dropWhile_id_of_head {α : Type} (p : α → Bool) (l : List α)
    (h : ∀ a t, l = a :: t → p a = false) :
    l.dropWhile p = l := by
  cases l with
  | nil => simp
  | cons a t => exact dropWhile_of_head_fails p a t (h a t rfl)

theorem jsTrim_of_wsFree (l : List Char) (h : ∀ c ∈ l, isJsWs c = false) :
    jsTrim l = l := by
  unfold jsTrim
  rw [dropWhile_id_of_head isJsWs l
    (fun a t ht => h a (by rw [ht]; exact List.mem_cons_self a t))]
  rw [dropWhile_id_of_head isJsWs l.reverse
    (fun a t ht => h a (List.mem_reverse.mp
      (show a ∈ l.reverse by rw [ht]; exact List.mem_cons_self a t)))]
  exact List.reverse_reverse l

theorem jsTrim_idem (l : List Char) : jsTrim (jsTrim l) = jsTrim l := by
  have claim2 : ∀ (x : List Char), (x.dropWhile isJsWs).dropWhile isJsWs
      = x.dropWhile isJsWs := by
    intro x
    exact dropWhile_id_of_head _ _ (fun a t ht => head_fails_dropWhile isJsWs x a t ht)
  show jsTrim (((l.dropWhile isJsWs).reverse.dropWhile isJsWs).reverse)
      = ((l.dropWhile isJsWs).reverse.dropWhile isJsWs).reverse
  unfold jsTrim
  have claim1 : ((l.dropWhile isJsWs).reverse.dropWhile isJsWs).reverse.dropWhile isJsWs
      = ((l.dropWhile isJsWs).reverse.dropWhile isJsWs).reverse := by
    apply dropWhile_id_of_head
    intro a t ht
    have hBne : (l.dropWhile isJsWs).reverse.dropWhile isJsWs ≠ [] := by
      intro hB
      rw [hB] at ht
      simp at ht
    have hAne : l.dropWhile isJsWs ≠ [] := by
      intro hA
      rw [hA] at hBne
      simp at hBne
    obtain ⟨x, xs, hx⟩ : ∃ x xs, l.dropWhile isJsWs = x :: xs := by
      cases hA : l.dropWhile isJsWs with
      | nil => exact absurd hA hAne
      | cons x xs => exact ⟨x, xs, rfl⟩
    have hxf : isJsWs x = false := head_fails_dropWhile isJsWs l x xs hx
    have hlast : ((l.dropWhile isJsWs).reverse.dropWhile isJsWs).getLast?
        = (l.dropWhile isJsWs).reverse.getLast? :=
      suffix_getLast? _ _ (List.dropWhile_suffix isJsWs) hBne
    have hrev : (l.dropWhile isJsWs).reverse.getLast? = some x := by
      rw [List.getLast?_reverse, hx]
      rfl
    have hhead : ((l.dropWhile isJsWs).reverse.dropWhile isJsWs).reverse.head? = some a := by
      rw [ht]
      rfl
    rw [List.head?_reverse, hlast, hrev] at hhead
    cases hhead
    exact hxf
  rw [claim1, List.reverse_reverse, claim2]

end Sink

namespace Sink

/-! ### collapseGo lemmas -/

theorem collapseGo_cons_slash (t : List Char) (n : Nat) :
    collapseGo ('/' :: t) n = collapseGo t (n + 1) := by
  simp [collapseGo]

theorem collapseGo_cons_ne (c : Char) (t : List Char) (n : Nat) (hc : ¬ c = '/') :
    collapseGo (c :: t) n = flushRun n ++ c :: collapseGo t 0 := by
  simp [collapseGo, hc]

theorem collapseGo_replicate (k : Nat) (r : List Char) (m : Nat) :
    collapseGo (List.replicate k '/' ++ r) m = collapseGo r (m + k) := by
  induction k generalizing m with
  | zero => simp
  | succ k ih =>
    rw [List.replicate_succ, List.cons_append, collapseGo_cons_slash, ih]
    congr 1
    omega

theorem flushRun_mem (a : Char) (n : Nat) (h : a ∈ flushRun n) : a = '/' := by
  unfold flushRun at h
  by_cases h3 : 3 ≤ n
  · rw [if_pos h3] at h
    simpa using h
  · rw [if_neg h3] at h
    exact (List.eq_of_mem_replicate h)

theorem collapseGo_idem (s : List Char) :
    ∀ n, collapseGo (collapseGo s n) 0 = collapseGo s n := by
  induction s with
  | nil =>
    intro n
    show collapseGo (flushRun n) 0 = flushRun n
    by_cases h3 : 3 ≤ n
    · rw [show flushRun n = ['/'] from by unfold flushRun; rw [if_pos h3]]
      decide
    · have : n = 0 ∨ n = 1 ∨ n = 2 := by omega
      rcases this with rfl | rfl | rfl <;> decide
  | cons c t ih =>
    intro n
    by_cases hc : c = '/'
    · subst hc
      rw [collapseGo_cons_slash]
      exact ih (n + 1)
    · rw [collapseGo_cons_ne c t n hc]
      by_cases h3 : 3 ≤ n
      · rw [show flushRun n = ['/'] from by unfold flushRun; rw [if_pos h3]]
        rw [show (['/'] : List Char) = List.replicate 1 '/' from rfl]
        rw [collapseGo_replicate, collapseGo_cons_ne c _ 1 hc, ih 0]
        rfl
      · rw [show flushRun n = List.replicate n '/' from by unfold flushRun; rw [if_neg h3]]
        rw [collapseGo_replicate, collapseGo_cons_ne c _ (0 + n) hc, ih 0]
        unfold flushRun
        rw [if_neg (show ¬ 3 ≤ 0 + n by omega)]
        rw [Nat.zero_add]

theorem collapseGo_mem (c : Char) :
    ∀ (s : List Char) (n : Nat), c ∈ collapseGo s n → c ∈ s ∨ c = '/' := by
  intro s
  induction s with
  | nil =>
    intro n h
    exact Or.inr (flushRun_mem c n h)
  | cons a t ih =>
    intro n h
    by_cases ha : a = '/'
    · subst ha
      rw [collapseGo_cons_slash] at h
      rcases ih (n + 1) h with h' | h'
      · exact Or.inl (List.mem_cons_of_mem _ h')
      · exact Or.inr h'
    · rw [collapseGo_cons_ne a t n ha] at h
      rcases List.mem_append.mp h with h' | h'
      · exact Or.inr (flushRun_mem c n h')
      · rcases List.mem_cons.mp h' with rfl | h''
        · exact Or.inl (List.mem_cons_self _ _)
        · rcases ih 0 h'' with h3 | h3
          · exact Or.inl (List.mem_cons_of_mem _ h3)
          · exact Or.inr h3

theorem collapseGo_slash_mem (s : List Char) :
    ∀ n, 1 ≤ n → '/' ∈ collapseGo s n := by
  induction s with
  | nil =>
    intro n hn
    show '/' ∈ flushRun n
    unfold flushRun
    by_cases h3 : 3 ≤ n
    · rw [if_pos h3]; simp
    · rw [if_neg h3]
      exact List.mem_replicate.mpr ⟨by omega, rfl⟩
  | cons a t ih =>
    intro n hn
    by_cases ha : a = '/'
    · subst ha
      rw [collapseGo_cons_slash]
      exact ih (n + 1) (by omega)
    · rw [collapseGo_cons_ne a t n ha]
      apply List.mem_append.mpr
      left
      unfold flushRun
      by_cases h3 : 3 ≤ n
      · rw [if_pos h3]; simp
      · rw [if_neg h3]
        exact List.mem_replicate.mpr ⟨by omega, rfl⟩

theorem collapseGo_no_slash_id (s : List Char)
    (h : ¬ '/' ∈ collapseGo s 0) : collapseGo s 0 = s := by
  induction s with
  | nil => decide
  | cons a t ih =>
    by_cases ha : a = '/'
    · subst ha
      rw [collapseGo_cons_slash] at h ⊢
      exact absurd (collapseGo_slash_mem t 1 (by omega)) h
    · rw [collapseGo_cons_ne a t 0 ha] at h ⊢
      rw [show flushRun 0 = [] from rfl] at h ⊢
      rw [List.nil_append] at h ⊢
      rw [ih (fun hm => h (List.mem_cons_of_mem a hm))]

theorem collapseGo_pos_head (s : List Char) :
    ∀ n, 1 ≤ n → ∃ tl, collapseGo s n = '/' :: tl := by
  induction s with
  | nil =>
    intro n hn
    show ∃ tl, flushRun n = '/' :: tl
    unfold flushRun
    by_cases h3 : 3 ≤ n
    · rw [if_pos h3]; exact ⟨[], rfl⟩
    · rw [if_neg h3]
      obtain ⟨m, rfl⟩ : ∃ m, n = m + 1 := ⟨n - 1, by omega⟩
      exact ⟨List.replicate m '/', by rw [List.replicate_succ]⟩
  | cons a t ih =>
    intro n hn
    by_cases ha : a = '/'
    · subst ha
      rw [collapseGo_cons_slash]
      exact ih (n + 1) (by omega)
    · rw [collapseGo_cons_ne a t n ha]
      unfold flushRun
      by_cases h3 : 3 ≤ n
      · rw [if_pos h3]; exact ⟨a :: collapseGo t 0, rfl⟩
      · rw [if_neg h3]
        obtain ⟨m, rfl⟩ : ∃ m, n = m + 1 := ⟨n - 1, by omega⟩
        rw [List.replicate_succ]
        exact ⟨List.replicate m '/' ++ a :: collapseGo t 0, rfl⟩

end Sink

namespace Sink

/-! ### suffix decomposition and the index.html stability lemma -/

theorem suffix_append_cases {α : Type} (l B : List α) :
    ∀ A : List α, l <:+ A ++ B → l <:+ B ∨ ∃ A', A' <:+ A ∧ l = A' ++ B := by
  intro A
  induction A with
  | nil => intro h; exact Or.inl (by simpa using h)
  | cons a A' ih =>
    intro h
    rw [List.cons_append] at h
    rcases List.suffix_cons_iff.mp h with heq | hsuf
    · exact Or.inr ⟨a :: A', List.suffix_refl _, by rw [heq, List.cons_append]⟩
    · rcases ih hsuf with h1 | ⟨A'', hA'', heq⟩
      · exact Or.inl h1
      · exact Or.inr ⟨A'', hA''.trans (List.suffix_cons a A'), heq⟩

theorem collapse_suffix_slashword (w : List Char) (hw : w ≠ [])
    (hwf : ∀ c ∈ w, ¬ c = '/') :
    ∀ (s : List Char) (n : Nat), ('/' :: w) <:+ collapseGo s n →
      ('/' :: w) <:+ (List.replicate n '/' ++ s) := by
  intro s
  induction s with
  | nil =>
    intro n h
    exfalso
    obtain ⟨wc, wt, rfl⟩ : ∃ wc wt, w = wc :: wt := by
      cases w with
      | nil => exact absurd rfl hw
      | cons wc wt => exact ⟨wc, wt, rfl⟩
    have hmem : wc ∈ collapseGo [] n := h.subset (by simp)
    exact hwf wc (by simp) (flushRun_mem wc n hmem)
  | cons c t ih =>
    intro n h
    by_cases hc : c = '/'
    · subst hc
      rw [collapseGo_cons_slash] at h
      have := ih (n + 1) h
      rw [List.replicate_succ'] at this
      rw [show List.replicate n '/' ++ '/' :: t
          = (List.replicate n '/' ++ ['/']) ++ t from by simp]
      exact this
    · rw [collapseGo_cons_ne c t n hc] at h
      rcases suffix_append_cases _ _ _ h with h1 | ⟨A', hA', heq⟩
      · rcases List.suffix_cons_iff.mp h1 with heq | hsuf
        · injection heq with h1' h2'
          exact absurd h1'.symm hc
        · have := ih 0 hsuf
          rw [List.replicate, List.nil_append] at this
          exact this.trans ((List.suffix_cons c t).trans (List.suffix_append _ _))
      · cases A' with
        | nil =>
          rw [List.nil_append] at heq
          cases heq
          exact absurd rfl hc
        | cons a A'' =>
          have ha : a = '/' := flushRun_mem a n (hA'.subset (List.mem_cons_self a A''))
          have hw_eq : w = A'' ++ c :: collapseGo t 0 := by
            rw [List.cons_append] at heq
            injection heq
          have hA''nil : A'' = [] := by
            cases A'' with
            | nil => rfl
            | cons b B =>
              have hb : b = '/' :=
                flushRun_mem b n (hA'.subset (List.mem_cons_of_mem a (List.mem_cons_self b B)))
              have : b ∈ w := by rw [hw_eq]; simp
              exact absurd hb (hwf b this)
          subst hA''nil
          rw [List.nil_append] at hw_eq
          have hXfree : ¬ '/' ∈ collapseGo t 0 := by
            intro hsl
            have : '/' ∈ w := by rw [hw_eq]; simp [hsl]
            exact hwf '/' this rfl
          have hXt : collapseGo t 0 = t := collapseGo_no_slash_id t hXfree
          have hn1 : 1 ≤ n := by
            by_contra hn
            have hn0 : n = 0 := by omega
            subst hn0
            rw [show flushRun 0 = [] from rfl] at hA'
            exact absurd (List.suffix_nil.mp hA') (by simp)
          obtain ⟨m, rfl⟩ : ∃ m, n = m + 1 := ⟨n - 1, by omega⟩
          rw [hw_eq, hXt]
          rw [List.replicate_succ']
          rw [show (List.replicate m '/' ++ ['/']) ++ c :: t
              = List.replicate m '/' ++ '/' :: c :: t from by simp]
          exact (List.suffix_append _ _)

end Sink

namespace Sink

/-! ### stripIndexHtml lemmas -/

theorem strip_starts_slash (p : List Char) (h : ∃ tl, p = '/' :: tl) :
    ∃ tl, stripIndexHtml p = '/' :: tl := by
  obtain ⟨tl, rfl⟩ := h
  unfold stripIndexHtml
  by_cases hs : indexSuffix.isSuffixOf ('/' :: tl) = true
  · rw [if_pos hs]
    cases hk : ('/' :: tl).length - 11 with
    | zero => exact ⟨[], rfl⟩
    | succ k => exact ⟨List.take k tl ++ ['/'], rfl⟩
  · rw [if_neg hs]
    exact ⟨tl, rfl⟩

theorem strip_mem (c : Char) (p : List Char) (h : c ∈ stripIndexHtml p) :
    c ∈ p ∨ c = '/' := by
  unfold stripIndexHtml at h
  by_cases hs : indexSuffix.isSuffixOf p = true
  · rw [if_pos hs] at h
    rcases List.mem_append.mp h with h1 | h1
    · exact Or.inl (List.take_subset _ _ h1)
    · simp at h1
      exact Or.inr h1
  · rw [if_neg hs] at h
    exact Or.inl h

theorem strip_of_collapsed_strip (p : List Char) :
    stripIndexHtml (collapseGo (stripIndexHtml p) 0) = collapseGo (stripIndexHtml p) 0 := by
  set s := stripIndexHtml p with hs_def
  by_cases hsuf : indexSuffix.isSuffixOf (collapseGo s 0) = true
  case neg => unfold stripIndexHtml; rw [if_neg hsuf]
  exfalso
  have hsfx : ('/' :: "index.html".data) <:+ collapseGo s 0 := by
    have := List.isSuffixOf_iff_suffix.mp hsuf
    exact this
  have hback := collapse_suffix_slashword "index.html".data (by decide)
    (by decide) s 0 hsfx
  rw [List.replicate, List.nil_append] at hback
  rw [hs_def] at hback
  unfold stripIndexHtml at hback
  by_cases hs2 : indexSuffix.isSuffixOf p = true
  · rw [if_pos hs2] at hback
    have h1 : (List.take (p.length - 11) p ++ ['/']).getLast? = some '/' :=
      List.getLast?_concat _
    have h2 := suffix_getLast? _ _ hback (by simp)
    rw [h1] at h2
    rw [show ('/' :: "index.html".data).getLast? = some 'l' from rfl] at h2
    simp at h2
  · rw [if_neg hs2] at hback
    exact hs2 (List.isSuffixOf_iff_suffix.mpr hback)

theorem normParts_idem (u : UrlParts) : normParts (normParts u) = normParts u := by
  unfold normParts
  show ({ u with
      pathname := collapseSlashes (stripIndexHtml
        (collapseSlashes (stripIndexHtml u.pathname))),
      frag := none } : UrlParts)
    = { u with pathname := collapseSlashes (stripIndexHtml u.pathname), frag := none }
  unfold collapseSlashes
  rw [strip_of_collapsed_strip, collapseGo_idem]

end Sink

namespace Sink

/-! ### splitSchemeAux lemmas -/

theorem splitSchemeAux_colon (acc t : List Char) :
    splitSchemeAux acc (':' :: '/' :: '/' :: t) = some (acc.reverse, t) := rfl

theorem splitSchemeAux_step (acc : List Char) (c : Char) (t : List Char)
    (hne : ∀ t1, c = ':' → t = '/' :: '/' :: t1 → False) :
    splitSchemeAux acc (c :: t) = splitSchemeAux (c :: acc) t := by
  unfold splitSchemeAux
  split
  · rename_i heq
    injection heq with h1 h2
    exact absurd (hne _ h1 h2) (fun hf => hf)
  · rename_i heq
    injection heq with h1 h2
    subst h1
    subst h2
    rw [splitSchemeAux.eq_def]
  · rename_i heq
    exact absurd heq (List.cons_ne_nil c t)

theorem splitSchemeAux_cons_ne (acc : List Char) (c : Char) (t : List Char)
    (hc : ¬ c = ':') :
    splitSchemeAux acc (c :: t) = splitSchemeAux (c :: acc) t :=
  splitSchemeAux_step acc c t (fun _ h1 _ => hc h1)

theorem splitSchemeAux_pres (P : Char → Prop) :
    ∀ (acc l : List Char) (a r : List Char),
      splitSchemeAux acc l = some (a, r) →
      (∀ c ∈ acc, P c) → (∀ c ∈ l, P c) →
      (∀ c ∈ a, P c) ∧ (∀ c ∈ r, P c) := by
  intro acc l
  induction acc, l using splitSchemeAux.induct with
  | case1 acc t =>
    intro a r h hacc hl
    rw [splitSchemeAux_colon] at h
    injection h with h'
    injection h' with h1 h2
    subst h1
    subst h2
    constructor
    · intro c hc
      exact hacc c (List.mem_reverse.mp hc)
    · intro c hc
      exact hl c (by simp [hc])
  | case2 acc c t hne ih =>
    intro a r h hacc hl
    rw [splitSchemeAux_step acc c t hne] at h
    have hacc' : ∀ x ∈ c :: acc, P x := by
      intro x hx
      rcases List.mem_cons.mp hx with rfl | hx'
      · exact hl x (List.mem_cons_self x t)
      · exact hacc x hx'
    have hl' : ∀ x ∈ t, P x := fun x hx => hl x (List.mem_cons_of_mem c hx)
    exact ih a r h hacc' hl'
  | case3 acc =>
    intro a r h hacc hl
    exact absurd h (by simp [splitSchemeAux])

theorem isSchemeChar_ne_colon (c : Char) (h : isSchemeChar c = true) : ¬ c = ':' := by
  intro hc
  subst hc
  exact absurd h (by decide)

theorem splitScheme_append (sch : List Char) :
    ∀ (acc r : List Char), sch.all isSchemeChar = true →
      splitSchemeAux acc (sch ++ ':' :: '/' :: '/' :: r)
        = some (acc.reverse ++ sch, r) := by
  induction sch with
  | nil =>
    intro acc r _
    rw [List.nil_append, splitSchemeAux_colon, List.append_nil]
  | cons c cs ih =>
    intro acc r hall
    have hc : isSchemeChar c = true := by
      have := List.all_eq_true.mp hall c (List.mem_cons_self c cs)
      exact this
    have hcs : cs.all isSchemeChar = true := by
      rw [List.all_eq_true]
      intro x hx
      exact List.all_eq_true.mp hall x (List.mem_cons_of_mem c hx)
    rw [List.cons_append, splitSchemeAux_cons_ne _ _ _ (isSchemeChar_ne_colon c hc)]
    rw [ih (c :: acc) r hcs]
    rw [List.reverse_cons]
    simp

end Sink

namespace Sink

/-! ### parse/serialize roundtrip -/

theorem takeWhile_cons_false {α : Type} (p : α → Bool) (a : α) (t : List α)
    (h : p a = false) :
    (a :: t).takeWhile p = [] := by
  simp [List.takeWhile_cons, h]

theorem parse_serialize (v : UrlParts)
    (hs1 : v.scheme ≠ [])
    (hs2 : v.scheme.all isSchemeChar = true)
    (hh1 : v.host ≠ [])
    (hh2 : ∀ c ∈ v.host, isHostBreak c = false)
    (hp1 : ∃ tl, v.pathname = '/' :: tl)
    (hp2 : ∀ c ∈ v.pathname, isPathBreak c = false)
    (hq : ∀ q, v.query = some q → ∀ c ∈ q, ¬ c = '#')
    (hf : v.frag = none)
    (hws : ∀ c ∈ serializeUrl v, isJsWs c = false ∧ ¬ c = '\\') :
    parseUrl (serializeUrl v) = some v := by
  obtain ⟨sch, host, p, q, f⟩ := v
  have hf' : f = none := hf
  subst hf'
  obtain ⟨tl, hp⟩ := hp1
  have hp' : p = '/' :: tl := hp
  subst hp'
  have hs1as : sch ≠ [] := hs1
  have hs2as : sch.all isSchemeChar = true := hs2
  have hh1as : host ≠ [] := hh1
  have hallHost : ∀ c ∈ host, (fun c => ¬ isHostBreak c : Char → Bool) c = true := by
    intro c hc
    simp [hh2 c hc]
  have hallPath : ∀ c ∈ '/' :: tl, (fun c => ¬ isPathBreak c : Char → Bool) c = true := by
    intro c hc
    simp [hp2 c hc]
  cases q with
  | none =>
    have hS : serializeUrl ⟨sch, host, '/' :: tl, none, none⟩
        = sch ++ ':' :: '/' :: '/' :: (host ++ '/' :: tl) := by
      unfold serializeUrl
      simp
    rw [hS] at hws ⊢
    have hanyf : (sch ++ ':' :: '/' :: '/' :: (host ++ '/' :: tl)).any
        (fun c => isJsWs c || c = '\\') = false := by
      rw [List.any_eq_false]
      intro x hx
      have hx' := hws x hx
      simp [hx'.1, hx'.2]
    unfold parseUrl
    rw [if_neg (show ¬ _ from fun hc => by rw [hanyf] at hc; cases hc)]
    rw [splitScheme_append sch [] _ hs2as]
    simp only [List.reverse_nil, List.nil_append]
    rw [if_neg (show ¬ sch.isEmpty = true from fun hc => hs1as (List.isEmpty_iff.mp hc))]
    rw [if_neg (show ¬ ¬ sch.all isSchemeChar = true from fun hc => hc hs2as)]
    have htake1 : (host ++ '/' :: tl).takeWhile (fun c => ¬ isHostBreak c) = host := by
      rw [takeWhile_append_all _ _ _ hallHost]
      rw [takeWhile_cons_false _ _ _ (by decide)]
      exact List.append_nil host
    have hdrop1 : (host ++ '/' :: tl).dropWhile (fun c => ¬ isHostBreak c) = '/' :: tl := by
      rw [dropWhile_append_all _ _ _ hallHost]
      exact dropWhile_of_head_fails _ _ _ (by decide)
    rw [htake1, hdrop1]
    rw [if_neg (show ¬ host.isEmpty = true from fun hc => hh1as (List.isEmpty_iff.mp hc))]
    have htake2 : ('/' :: tl).takeWhile (fun c => ¬ isPathBreak c) = '/' :: tl :=
      takeWhile_all _ _ hallPath
    have hdrop2 : ('/' :: tl).dropWhile (fun c => ¬ isPathBreak c) = [] :=
      dropWhile_all _ _ hallPath
    rw [htake2, hdrop2]
    rw [if_neg (show ¬ ('/' :: tl).isEmpty = true from by simp)]
  | some qq =>
    have hqall : ∀ c ∈ qq, (fun c => ¬ c = '#' : Char → Bool) c = true := by
      intro c hc
      simp [hq qq rfl c hc]
    have hS : serializeUrl ⟨sch, host, '/' :: tl, some qq, none⟩
        = sch ++ ':' :: '/' :: '/' :: (host ++ ('/' :: tl ++ '?' :: qq)) := by
      unfold serializeUrl
      simp
    rw [hS] at hws ⊢
    have hanyf : (sch ++ ':' :: '/' :: '/' :: (host ++ ('/' :: tl ++ '?' :: qq))).any
        (fun c => isJsWs c || c = '\\') = false := by
      rw [List.any_eq_false]
      intro x hx
      have hx' := hws x hx
      simp [hx'.1, hx'.2]
    unfold parseUrl
    rw [if_neg (show ¬ _ from fun hc => by rw [hanyf] at hc; cases hc)]
    rw [splitScheme_append sch [] _ hs2as]
    simp only [List.reverse_nil, List.nil_append]
    rw [if_neg (show ¬ sch.isEmpty = true from fun hc => hs1as (List.isEmpty_iff.mp hc))]
    rw [if_neg (show ¬ ¬ sch.all isSchemeChar = true from fun hc => hc hs2as)]
    have htake1 : (host ++ ('/' :: tl ++ '?' :: qq)).takeWhile (fun c => ¬ isHostBreak c)
        = host := by
      rw [takeWhile_append_all _ _ _ hallHost]
      rw [List.cons_append]
      rw [takeWhile_cons_false _ _ _ (by decide)]
      exact List.append_nil host
    have hdrop1 : (host ++ ('/' :: tl ++ '?' :: qq)).dropWhile (fun c => ¬ isHostBreak c)
        = '/' :: tl ++ '?' :: qq := by
      rw [dropWhile_append_all _ _ _ hallHost]
      rw [List.cons_append]
      rw [dropWhile_of_head_fails _ _ _ (by decide)]
    rw [htake1, hdrop1]
    rw [if_neg (show ¬ host.isEmpty = true from fun hc => hh1as (List.isEmpty_iff.mp hc))]
    have htake2 : ('/' :: tl ++ '?' :: qq).takeWhile (fun c => ¬ isPathBreak c)
        = '/' :: tl := by
      rw [takeWhile_append_all _ _ _ hallPath]
      rw [takeWhile_cons_false _ _ _ (by decide)]
      exact List.append_nil ('/' :: tl)
    have hdrop2 : ('/' :: tl ++ '?' :: qq).dropWhile (fun c => ¬ isPathBreak c)
        = '?' :: qq := by
      rw [dropWhile_append_all _ _ _ hallPath]
      exact dropWhile_of_head_fails _ _ _ (by decide)
    rw [htake2, hdrop2]
    rw [if_neg (show ¬ ('/' :: tl).isEmpty = true from by simp)]
    have htq : qq.takeWhile (fun c => ¬ c = '#') = qq := takeWhile_all _ _ hqall
    have hdq : qq.dropWhile (fun c => ¬ c = '#') = [] := dropWhile_all _ _ hqall
    split
    · rename_i qrest heq
      injection heq with h1 h2
      subst h2
      rw [htq, hdq]
    · rename_i f heq
      injection heq with h1 h2
      exact absurd h1 (by decide)
    · rename_i h1 h2
      exact (h1 qq rfl).elim

end Sink

namespace Sink

theorem norm_fixed_core (t sch host P : List Char) (q : Option (List Char))
    (f : Option (List Char))
    (hs1 : sch ≠ [])
    (hs2 : sch.all isSchemeChar = true)
    (hh1 : host ≠ [])
    (hh2 : ∀ c ∈ host, isHostBreak c = false)
    (hp1 : ∃ tl, P = '/' :: tl)
    (hp2 : ∀ c ∈ P, isPathBreak c = false)
    (hq1 : ∀ qq, q = some qq → ∀ c ∈ qq, ¬ c = '#')
    (hmem_s : ∀ c ∈ sch, c ∈ t)
    (hmem_h : ∀ c ∈ host, c ∈ t)
    (hmem_p : ∀ c ∈ P, c ∈ t ∨ c = '/')
    (hmem_q : ∀ qq, q = some qq → ∀ c ∈ qq, c ∈ t)
    (hwst : ∀ c ∈ t, isJsWs c = false ∧ ¬ c = '\\') :
    normalizeList (serializeUrl (normParts ⟨sch, host, P, q, f⟩))
      = serializeUrl (normParts ⟨sch, host, P, q, f⟩) := by
  have hnp : normParts ⟨sch, host, P, q, f⟩
      = ⟨sch, host, collapseSlashes (stripIndexHtml P), q, none⟩ := rfl
  rw [hnp]
  have hp1' : ∃ tl, collapseSlashes (stripIndexHtml P) = '/' :: tl := by
    obtain ⟨tl0, hstl⟩ := strip_starts_slash P hp1
    unfold collapseSlashes
    rw [hstl, collapseGo_cons_slash]
    exact collapseGo_pos_head tl0 1 (by omega)
  have hp2' : ∀ c ∈ collapseSlashes (stripIndexHtml P), isPathBreak c = false := by
    intro c hc
    rcases collapseGo_mem c (stripIndexHtml P) 0 hc with hcs | rfl
    · rcases strip_mem c P hcs with hcp | rfl
      · exact hp2 c hcp
      · decide
    · decide
  have hmem_p' : ∀ c ∈ collapseSlashes (stripIndexHtml P), c ∈ t ∨ c = '/' := by
    intro c hc
    rcases collapseGo_mem c (stripIndexHtml P) 0 hc with hcs | rfl
    · rcases strip_mem c P hcs with hcp | rfl
      · exact hmem_p c hcp
      · exact Or.inr rfl
    · exact Or.inr rfl
  have hqmem : ∀ c', c' ∈ (match q with
        | some qq => '?' :: qq
        | none => ([] : List Char)) →
      c' = '?' ∨ ∃ qq, q = some qq ∧ c' ∈ qq := by
    intro c' hc'
    cases q with
    | none => simp at hc'
    | some qq =>
      rcases List.mem_cons.mp hc' with rfl | hin
      · exact Or.inl rfl
      · exact Or.inr ⟨qq, rfl, hin⟩
  have hws_ser : ∀ c ∈ serializeUrl ⟨sch, host, collapseSlashes (stripIndexHtml P), q, none⟩,
      isJsWs c = false ∧ ¬ c = '\\' := by
    intro c hc
    unfold serializeUrl at hc
    simp only [List.mem_append, List.mem_cons] at hc
    rcases hc with (((hc | rfl | rfl | rfl | hc) | hc) | hc) | hc
    · exact hwst c (hmem_s c hc)
    · exact ⟨by decide, by decide⟩
    · exact ⟨by decide, by decide⟩
    · exact ⟨by decide, by decide⟩
    · exact hwst c (hmem_h c hc)
    · rcases hmem_p' c hc with hct | rfl
      · exact hwst c hct
      · exact ⟨by decide, by decide⟩
    · rcases hqmem c hc with rfl | ⟨qq, hqq, hin⟩
      · exact ⟨by decide, by decide⟩
      · exact hwst c (hmem_q qq hqq c hin)
    · simp at hc
  have hround := parse_serialize ⟨sch, host, collapseSlashes (stripIndexHtml P), q, none⟩
      hs1 hs2 hh1 hh2 hp1' hp2' (fun qq hqq => hq1 qq hqq) rfl hws_ser
  have hjt : jsTrim (serializeUrl ⟨sch, host, collapseSlashes (stripIndexHtml P), q, none⟩)
      = serializeUrl ⟨sch, host, collapseSlashes (stripIndexHtml P), q, none⟩ :=
    jsTrim_of_wsFree _ (fun c hc => (hws_ser c hc).1)
  have hfix : normParts ⟨sch, host, collapseSlashes (stripIndexHtml P), q, none⟩
      = ⟨sch, host, collapseSlashes (stripIndexHtml P), q, none⟩ := by
    have hidem := normParts_idem ⟨sch, host, P, q, f⟩
    rw [hnp] at hidem
    exact hidem
  unfold normalizeList
  simp only [hjt, hround]
  rw [hfix]

end Sink

namespace Sink

theorem host_facts (t rest : List Char) (hrest : ∀ c ∈ rest, c ∈ t) :
    (∀ c ∈ rest.takeWhile (fun c => ¬ isHostBreak c), isHostBreak c = false)
    ∧ (∀ c ∈ rest.takeWhile (fun c => ¬ isHostBreak c), c ∈ t) := by
  constructor
  · intro c hc
    have := List.mem_takeWhile_imp hc
    simpa using this
  · intro c hc
    exact hrest c (( List.takeWhile_prefix _).subset hc)

theorem mem_chain_r2 (t rest : List Char) (hrest : ∀ c ∈ rest, c ∈ t)
    (x : List Char)
    (hx : (rest.dropWhile (fun c => ¬ isHostBreak c)).dropWhile
        (fun c => ¬ isPathBreak c) = x) :
    ∀ c ∈ x, c ∈ t := by
  intro c hc
  rw [← hx] at hc
  exact hrest c ((List.dropWhile_suffix _).subset ((List.dropWhile_suffix _).subset hc))

theorem path_facts (t rest : List Char) (hrest : ∀ c ∈ rest, c ∈ t)
    (P : List Char)
    (hP : P = if ((rest.dropWhile (fun c => ¬ isHostBreak c)).takeWhile
          (fun c => ¬ isPathBreak c)).isEmpty then ['/']
        else (rest.dropWhile (fun c => ¬ isHostBreak c)).takeWhile
          (fun c => ¬ isPathBreak c)) :
    (∃ tl, P = '/' :: tl) ∧ (∀ c ∈ P, isPathBreak c = false)
    ∧ (∀ c ∈ P, c ∈ t ∨ c = '/') := by
  by_cases hb : ((rest.dropWhile (fun c => ¬ isHostBreak c)).takeWhile
      (fun c => ¬ isPathBreak c)).isEmpty = true
  · rw [if_pos hb] at hP
    subst hP
    refine ⟨⟨[], rfl⟩, ?_, ?_⟩
    · intro c hc
      rcases List.mem_cons.mp hc with rfl | hc'
      · decide
      · simp at hc'
    · intro c hc
      rcases List.mem_cons.mp hc with rfl | hc'
      · exact Or.inr rfl
      · simp at hc'
  · rw [if_neg hb] at hP
    cases hr1 : rest.dropWhile (fun c => ¬ isHostBreak c) with
    | nil =>
      exfalso
      apply hb
      rw [hr1]
      rfl
    | cons b bs =>
      have hbfail : (fun c => (¬ isHostBreak c : Bool)) b = false :=
        head_fails_dropWhile _ rest b bs hr1
      have hbreak : isHostBreak b = true := by simpa using hbfail
      have hbcases : (b = '/' ∨ b = '?') ∨ b = '#' := by
        unfold isHostBreak at hbreak
        simpa using hbreak
      rw [or_assoc] at hbcases
      rcases hbcases with rfl | rfl | rfl
      · rw [hr1, List.takeWhile_cons,
          if_pos (show ((fun c => (¬ isPathBreak c : Bool)) '/') = true from by decide)] at hP
        subst hP
        refine ⟨⟨_, rfl⟩, ?_, ?_⟩
        · intro c hc
          rcases List.mem_cons.mp hc with rfl | hc'
          · decide
          · have := List.mem_takeWhile_imp hc'
            simpa using this
        · intro c hc
          rcases List.mem_cons.mp hc with rfl | hc'
          · exact Or.inr rfl
          · left
            apply hrest
            have h1 : c ∈ bs := ( List.takeWhile_prefix _).subset hc'
            have h2 : c ∈ rest.dropWhile (fun c => ¬ isHostBreak c) := by
              rw [hr1]
              exact List.mem_cons_of_mem '/' h1
            exact (List.dropWhile_suffix _).subset h2
      · exfalso
        apply hb
        rw [hr1, takeWhile_cons_false _ _ _ (by decide)]
        rfl
      · exfalso
        apply hb
        rw [hr1, takeWhile_cons_false _ _ _ (by decide)]
        rfl

end Sink

namespace Sink

theorem normalizeList_fixed_of_parse (t : List Char) (u : UrlParts)
    (h : parseUrl t = some u) :
    normalizeList (serializeUrl (normParts u)) = serializeUrl (normParts u) := by
  unfold parseUrl at h
  by_cases hany : (t.any (fun c => isJsWs c || c = '\\')) = true
  · rw [if_pos hany] at h
    cases h
  · rw [if_neg hany] at h
    have hwst : ∀ c ∈ t, isJsWs c = false ∧ ¬ c = '\\' := by
      intro c hc
      have hnc : ¬ ((isJsWs c || decide (c = '\\')) = true) :=
        fun hcc => hany (List.any_eq_true.mpr ⟨c, hc, hcc⟩)
      constructor
      · exact Bool.eq_false_iff.mpr (fun hh => hnc (by simp [hh]))
      · exact fun hbs => hnc (by simp [hbs])
    cases hsplit : splitSchemeAux [] t with
    | none =>
      rw [hsplit] at h
      cases h
    | some pr =>
      obtain ⟨sch, rest⟩ := pr
      rw [hsplit] at h
      simp only [] at h
      by_cases hse : sch.isEmpty = true
      · rw [if_pos hse] at h
        cases h
      · rw [if_neg hse] at h
        by_cases hsa : sch.all isSchemeChar = true
        case neg =>
          rw [if_pos hsa] at h
          cases h
        case pos =>
          rw [if_neg (not_not_intro hsa)] at h
          by_cases hhe : ((rest.takeWhile (fun c => ¬ isHostBreak c)).isEmpty) = true
          · rw [if_pos hhe] at h
            cases h
          · rw [if_neg hhe] at h
            have hmem := splitSchemeAux_pres (· ∈ t) [] t sch rest hsplit
              (by simp) (fun c hc => hc)
            have hrest : ∀ c ∈ rest, c ∈ t := hmem.2
            have hsch_mem : ∀ c ∈ sch, c ∈ t := hmem.1
            have hhost := host_facts t rest hrest
            have hpath := path_facts t rest hrest _ rfl
            have hs1' : sch ≠ [] := fun hnil => hse (by rw [hnil]; rfl)
            have hh1' : rest.takeWhile (fun c => ¬ isHostBreak c) ≠ [] :=
              fun hnil => hhe (by rw [hnil]; rfl)
            split at h
            · rename_i qrest heq
              split at h
              · rename_i f heq2
                injection h with h'
                subst h'
                refine norm_fixed_core t sch _ _ _ _ hs1' hsa hh1' hhost.1
                  hpath.1 hpath.2.1 ?_ hsch_mem hhost.2 hpath.2.2 ?_ hwst
                · intro qq hqq c hcq
                  injection hqq with h''
                  subst h''
                  have := List.mem_takeWhile_imp hcq
                  simpa using this
                · intro qq hqq c hcq
                  injection hqq with h''
                  subst h''
                  have h1 : c ∈ qrest := ( List.takeWhile_prefix _).subset hcq
                  have h2 : c ∈ '?' :: qrest := List.mem_cons_of_mem _ h1
                  rw [← heq] at h2
                  exact mem_chain_r2 t rest hrest _ rfl c h2
              · injection h with h'
                subst h'
                refine norm_fixed_core t sch _ _ _ _ hs1' hsa hh1' hhost.1
                  hpath.1 hpath.2.1 ?_ hsch_mem hhost.2 hpath.2.2 ?_ hwst
                · intro qq hqq c hcq
                  injection hqq with h''
                  subst h''
                  have := List.mem_takeWhile_imp hcq
                  simpa using this
                · intro qq hqq c hcq
                  injection hqq with h''
                  subst h''
                  have h1 : c ∈ qrest := ( List.takeWhile_prefix _).subset hcq
                  have h2 : c ∈ '?' :: qrest := List.mem_cons_of_mem _ h1
                  rw [← heq] at h2
                  exact mem_chain_r2 t rest hrest _ rfl c h2
            · rename_i f heq
              injection h with h'
              subst h'
              exact norm_fixed_core t sch _ _ _ _ hs1' hsa hh1' hhost.1
                hpath.1 hpath.2.1 (fun qq hqq => nomatch hqq) hsch_mem hhost.2
                hpath.2.2 (fun qq hqq => nomatch hqq) hwst
            · injection h with h'
              subst h'
              exact norm_fixed_core t sch _ _ _ _ hs1' hsa hh1' hhost.1
                hpath.1 hpath.2.1 (fun qq hqq => nomatch hqq) hsch_mem hhost.2
                hpath.2.2 (fun qq hqq => nomatch hqq) hwst

theorem normalizeList_idem (l : List Char) :
    normalizeList (normalizeList l) = normalizeList l := by
  cases hparse : parseUrl (jsTrim l) with
  | none =>
    have h1 : normalizeList l = jsTrim l := by
      unfold normalizeList
      simp only []
      rw [hparse]
    rw [h1]
    unfold normalizeList
    simp only []
    rw [jsTrim_idem l, hparse]
  | some u =>
    have h1 : normalizeList l = serializeUrl (normParts u) := by
      unfold normalizeList
      simp only []
      rw [hparse]
    rw [h1]
    exact normalizeList_fixed_of_parse (jsTrim l) u hparse

end Sink

/-- C9: URL normalization is idempotent: for every URL-like string `s`,
`normalizeUrl (normalizeUrl s) = normalizeUrl s`.  When parsing fails the
output is the trimmed input, which trims to itself and parses no better
the second time; when parsing succeeds, the serialized output re-parses
to exactly the normalized components (the fragment is gone, the pathname
still starts with `/` and contains no break characters), and both the
`/index.html` strip and the slash-run collapse are idempotent on an
already-normalized pathname. -/
theorem normalizeUrl_idempotent (s : String) :
    Sink.normalizeUrl (Sink.normalizeUrl s) = Sink.normalizeUrl s := by
  show (⟨Sink.normalizeList (Sink.normalizeList s.data)⟩ : String)
      = ⟨Sink.normalizeList s.data⟩
  rw [Sink.normalizeList_idem]
